import Mathlib

/-!
# ZModem signature matching and the `startSZ` read loop

A shallow embedding of `internal/module/module_terminal/ZModem.go`:

* the signature constants (`ZModemSZStart` … `ZModemCancel`);
* `ByteContains`, together with the effect its `append` has on the storage of
  its first argument;
* `worker.startSZ`, run against a scripted transport;
* the receiving branch of `processZModem`, which the source keeps as
  commented-out code.

Bytes are natural numbers (every constant below is `< 256`); a Go `[]byte` is
the list of the `len` bytes visible through it.
-/

namespace ZModem

/-! ## Signature constants (ZModem.go, lines 10–40) -/

def ZModemSZStart : List Nat :=
  [42, 42, 24, 66, 48, 48, 48, 48, 48, 48, 48, 48, 48, 48, 48, 48, 48, 48, 13, 138, 17]

def ZModemSZEnd : List Nat :=
  [42, 42, 24, 66, 48, 56, 48, 48, 48, 48, 48, 48, 48, 48, 48, 50, 50, 100, 13, 138]

def ZModemSZEndOO : List Nat := [79, 79]

def ZModemRZStart : List Nat :=
  [42, 42, 24, 66, 48, 49, 48, 48, 48, 48, 48, 48, 50, 51, 98, 101, 53, 48, 13, 138, 17]

def ZModemRZEStart : List Nat :=
  [42, 42, 24, 66, 48, 49, 48, 48, 48, 48, 48, 48, 54, 51, 102, 54, 57, 52, 13, 138, 17]

def ZModemRZSStart : List Nat :=
  [42, 42, 24, 66, 48, 49, 48, 48, 48, 48, 48, 50, 50, 51, 100, 56, 51, 50, 13, 138, 17]

def ZModemRZESStart : List Nat :=
  [42, 42, 24, 66, 48, 49, 48, 48, 48, 48, 48, 50, 54, 51, 57, 48, 102, 54, 13, 138, 17]

def ZModemRZEnd : List Nat :=
  [42, 42, 24, 66, 48, 56, 48, 48, 48, 48, 48, 48, 48, 48, 48, 50, 50, 100, 13, 138]

def ZModemRZCtrlStart : List Nat := [42, 42, 24, 66, 48]

def ZModemRZCtrlEnd1 : List Nat := [13, 138, 17]

def ZModemRZCtrlEnd2 : List Nat := [13, 138]

def ZModemCancel : List Nat := [24, 24, 24, 24, 24, 8, 8, 8, 8, 8]

/-- Every signature constant declared in the `var` block. -/
def signatureTable : List (List Nat) :=
  [ZModemSZStart, ZModemSZEnd, ZModemSZEndOO, ZModemRZStart, ZModemRZEStart,
   ZModemRZSStart, ZModemRZESStart, ZModemRZEnd, ZModemRZCtrlStart,
   ZModemRZCtrlEnd1, ZModemRZCtrlEnd2, ZModemCancel]

/-- Signatures tested while no transfer is active (`processZModem`, last branch,
and the cancel test at the head of `startSZ`). -/
def idleSignatures : List (List Nat) :=
  [ZModemSZStart, ZModemRZStart, ZModemRZEStart, ZModemRZSStart, ZModemRZESStart, ZModemCancel]

/-- Signatures tested while a send is in progress, with the trailer. -/
def sendingSignatures : List (List Nat) :=
  [ZModemSZEnd, ZModemCancel, ZModemSZEndOO]

/-- Signatures tested while a receive is in progress. -/
def receivingSignatures : List (List Nat) :=
  [ZModemRZEnd, ZModemCancel, ZModemRZCtrlStart, ZModemRZCtrlEnd1, ZModemRZCtrlEnd2]

/-! ## `bytes.Index` and Go slice primitives -/

/-- Position of the first instance of `y` in `x`, if there is one
(`bytes.Index` before its `-1` encoding). An empty `y` is found at 0. -/
def indexOf? : List Nat → List Nat → Option Nat
  | [], y => if y.isEmpty then some 0 else none
  | a :: t, y =>
    if y.isPrefixOf (a :: t) then some 0
    else (indexOf? t y).map (· + 1)

/-- Go `bytes.Index(x, y)`: index of the first instance of `y` in `x`,
or `-1` if `y` is not present in `x`. -/
def bytesIndex (x y : List Nat) : Int :=
  match indexOf? x y with
  | some i => (i : Int)
  | none => -1

/-- Go `x[:hi]` on a slice whose capacity equals its length: a run-time panic
(`none`) when `hi` is negative or beyond the slice. -/
def sliceTo (x : List Nat) (hi : Int) : Option (List Nat) :=
  if 0 ≤ hi ∧ hi ≤ (x.length : Int) then some (x.take hi.toNat) else none

/-- Go `x[lo:]`: a run-time panic (`none`) when `lo` is out of range. -/
def sliceFrom (x : List Nat) (lo : Int) : Option (List Nat) :=
  if 0 ≤ lo ∧ lo ≤ (x.length : Int) then some (x.drop lo.toNat) else none

/-- Go `append(x[:k], elems...)` seen from the storage of `x`, where `hd` is
`x[:k]`. The slice `x[:k]` starts where `x` starts and keeps the capacity of
`x`, so whenever `k + len(elems) ≤ len(x)` the elements are copied over
`x[k .. k+len(elems))` in place (as by `memmove`, the source being read
before it is overwritten) and the bytes behind them stay. Otherwise a fresh
array is used and `x` is left alone. Returns the appended slice and the
bytes of `x` afterwards. -/
def appendInPlace (x hd elems : List Nat) : List Nat × List Nat :=
  if hd.length + elems.length ≤ x.length then
    (hd ++ elems, hd ++ elems ++ x.drop (hd.length + elems.length))
  else
    (hd ++ elems, x)

/-- What a call `ByteContains(x, y)` leaves behind: the two results and the
bytes of the caller's buffer `x` after the call. -/
structure Contains where
  n : List Nat
  contain : Bool
  mem : List Nat
  deriving DecidableEq, Repr

/-- `ByteContains` (ZModem.go, lines 310–318). `none` is a run-time panic of
one of the two slice expressions. The zero value of `n` (a nil slice) is the
empty list. -/
def ByteContains (x y : List Nat) : Option Contains :=
  let index := bytesIndex x y
  if index = -1 then
    some { n := [], contain := false, mem := x }
  else
    let lastIndex := index + (y.length : Int)
    match sliceTo x index, sliceFrom x lastIndex with
    | some hd, some tl =>
      let r := appendInPlace x hd tl
      some { n := r.1, contain := true, mem := r.2 }
    | _, _ => none

/-! ## Occurrences -/

/-- `y` sits in `x` at position `i`. -/
def OccursAt (x y : List Nat) (i : Nat) : Prop :=
  i + y.length ≤ x.length ∧ (x.drop i).take y.length = y

/-- `y` occurs in `x` as a contiguous run of bytes. -/
def Occurs (x y : List Nat) : Prop :=
  ∃ pre post, x = pre ++ y ++ post

instance (x y : List Nat) (i : Nat) : Decidable (OccursAt x y i) := by
  unfold OccursAt; infer_instance

/-- The bytes of `x` after a call that matched at `i`: the front of the
buffer holds the result, the last `len(y)` bytes are as they were. -/
def shifted (x y : List Nat) (i : Nat) : List Nat :=
  x.take i ++ x.drop (i + y.length) ++ x.drop (x.length - y.length)

/-! ## The transport seen by `startSZ` -/

/-- A non-nil Go `error` coming back from the transport: `io.EOF`, or any
other error value (told apart by a code). -/
inductive GoError
  | EOF
  | other (code : Nat)
  deriving DecidableEq, Repr

/-- What one call of `service.Read` has to deliver: the bytes it offers and
the error it reports with them (`none` is a nil error). -/
structure ReadResult where
  data : List Nat
  err : Option GoError
  deriving DecidableEq, Repr

/-- The `terminal.Service` as `startSZ` sees it: the error of its `Write`
(`none` is nil) and the results of its successive `Read`s. -/
structure Service where
  writeErr : Option GoError
  reads : List ReadResult
  deriving DecidableEq, Repr

/-- A transport operation performed by `startSZ`. -/
inductive Event
  | write (p : List Nat)
  | read
  deriving DecidableEq, Repr

/-- `n, err = service.Read(buff)`: the reader stores at most `len(buff)` of
the offered bytes at the front of `buff` and returns their number; the bytes
of `buff` behind them keep their prior contents. Returns `n`, `err` and the
buffer afterwards. -/
def serviceRead (buff : List Nat) (r : ReadResult) : Nat × Option GoError × List Nat :=
  let d := r.data.take buff.length
  (d.length, r.err, d ++ buff.drop d.length)

/-- The bytes a read delivers into `buff`, that is `buff[:n]` right after
`n, err = service.Read(buff)`. -/
def chunk (buff : List Nat) (r : ReadResult) : List Nat :=
  (serviceRead buff r).2.2.take (serviceRead buff r).1

/-- The bytes of `[]byte("**.B0100000023be50...")`, written by `startSZ`
(line 51). -/
def ackFrame : List Nat := "**.B0100000023be50...".toList.map Char.toNat

/-! ## `worker.startSZ` (ZModem.go, lines 42–128) -/

/-- The local variables that live across iterations of the `for` loop. -/
structure LoopState where
  ZModemSZOO : Bool
  ZModemSZ : Bool
  buff : List Nat
  deriving DecidableEq, Repr

/-- How one pass through the loop body ends. -/
inductive Step
  | next (s : LoopState)
  | brk (n : Nat) (err : Option GoError)
  | ret (n : Nat) (err : Option GoError)
  | panic
  deriving DecidableEq, Repr

/-- How a run of `startSZ` ends on a script: it returns `(n, err)`, it
panics, or it has used up the scripted reads and waits in `service.Read`
with the given loop state. -/
inductive Outcome
  | returned (n : Nat) (err : Option GoError)
  | panicked
  | blocked (s : LoopState)
  deriving DecidableEq, Repr

/-- A run: the transport operations in order, and how it ended. -/
structure Run where
  trace : List Event
  outcome : Outcome
  deriving DecidableEq, Repr

/-- `buff[0] == ZModemSZEndOO[0] && buff[1] == ZModemSZEndOO[1]`, with the
short circuit of `&&`; `none` is an index out of range. -/
def trailerCheck (buff : List Nat) : Option Bool :=
  match buff[0]?, ZModemSZEndOO[0]? with
  | some b0, some t0 =>
    if b0 = t0 then
      match buff[1]?, ZModemSZEndOO[1]? with
      | some b1, some t1 => some (decide (b1 = t1))
      | _, _ => none
    else some false
  | _, _ => none

/-- Lines 118–121, the end of the loop body: `err == io.EOF` clears the error
and breaks, otherwise the loop goes round with the new locals. -/
def endOfBody (n : Nat) (err : Option GoError) (s : LoopState) : Step :=
  if err = some GoError.EOF then Step.brk n none else Step.next s

/-- One pass through the body of the `for` loop (lines 77–121) on the next
read result. -/
def loopBody (s : LoopState) (r : ReadResult) : Step :=
  match serviceRead s.buff r with
  | (n, err, buff) =>
    if err ≠ none ∧ err ≠ some GoError.EOF then Step.ret n err
    else if s.ZModemSZOO then
      if n = 2 then
        match trailerCheck buff with
        | none => Step.panic
        | some true => Step.brk 0 err
        | some false => Step.brk n err
      else
        match trailerCheck buff with
        | none => Step.panic
        | some true => Step.brk 0 err
        | some false => Step.brk n err
    else if !s.ZModemSZ then Step.brk n err
    else
      match sliceTo buff n with
      | none => Step.panic
      | some chunk =>
        match ByteContains chunk ZModemSZEnd with
        | none => Step.panic
        | some c1 =>
          if c1.contain then
            endOfBody n err
              { ZModemSZOO := true, ZModemSZ := false, buff := c1.mem ++ buff.drop n }
          else
            match ByteContains c1.mem ZModemCancel with
            | none => Step.panic
            | some c2 =>
              if c2.contain then
                endOfBody n err
                  { ZModemSZOO := false, ZModemSZ := false, buff := c2.mem ++ buff.drop n }
              else
                endOfBody n err
                  { ZModemSZOO := false, ZModemSZ := true, buff := c2.mem ++ buff.drop n }

/-- The `for` loop with the lines behind it (76–127), on the reads still
scripted: the reads it performs and how the run ends. -/
def szLoop (s : LoopState) : List ReadResult → List Event × Outcome
  | [] => ([], Outcome.blocked s)
  | r :: rest =>
    match loopBody s r with
    | Step.next s1 =>
      let t := szLoop s1 rest
      (Event.read :: t.1, t.2)
    | Step.brk n err =>
      ([Event.read], Outcome.returned n (if err = some GoError.EOF then none else err))
    | Step.ret n err => ([Event.read], Outcome.returned n err)
    | Step.panic => ([Event.read], Outcome.panicked)

/-- The loop state in which `startSZ` enters its `for` loop (lines 74–75). -/
def initialState (buff : List Nat) : LoopState :=
  { ZModemSZOO := false, ZModemSZ := true, buff := buff }

/-- `worker.startSZ(key, x, buff, service)`; `key` and the logger take no part
in the result. -/
def startSZ (x buff : List Nat) (service : Service) : Run :=
  match ByteContains x ZModemCancel with
  | none => { trace := [], outcome := Outcome.panicked }
  | some c =>
    if c.contain then { trace := [], outcome := Outcome.returned 0 none }
    else
      match service.writeErr with
      | some e => { trace := [Event.write ackFrame], outcome := Outcome.returned 0 (some e) }
      | none =>
        let t := szLoop (initialState buff) service.reads
        { trace := Event.write ackFrame :: t.1, outcome := t.2 }

/-- What holds of the loop locals whenever the loop is about to read: the
trailer is awaited only once sending is over, and only with a buffer that
has held the send-end signature. -/
def LoopInv (s : LoopState) : Prop :=
  s.ZModemSZOO = true → s.ZModemSZ = false ∧ 2 ≤ s.buff.length

/-- Two loop states that differ at most in bytes of the scratch buffer the
loop will not look at: same flags, same buffer length and, while the trailer
is awaited, the same first two bytes. -/
def SameView (s1 s2 : LoopState) : Prop :=
  s1.ZModemSZOO = s2.ZModemSZOO ∧ s1.ZModemSZ = s2.ZModemSZ ∧
  s1.buff.length = s2.buff.length ∧
  (s1.ZModemSZOO = true → s1.buff.take 2 = s2.buff.take 2)

/-- Two outcomes that agree in all but the scratch buffer of a waiting run. -/
def SameOutcome (o1 o2 : Outcome) : Prop :=
  o1 = o2 ∨ ∃ s1 s2, o1 = Outcome.blocked s1 ∧ o2 = Outcome.blocked s2 ∧ SameView s1 s2

/-- The bytes of a Go string literal whose characters are all single bytes
(`\xNN` escapes included), one byte per character. -/
def wireBytes (str : String) : List Nat := str.toList.map Char.toNat

/-! ## The receiving branch of `processZModem` (lines 177–240)

The function is kept in the source as commented-out code; its branch for the
receiving state is embedded here as it is written there. -/

/-- The four receive-start variants (`rz`, `rz -e`, `rz -S`, `rz -e -S`). -/
def receiveStartSignatures : List (List Nat) :=
  [ZModemRZStart, ZModemRZEStart, ZModemRZSStart, ZModemRZESStart]

/-- The five start signatures. -/
def startSignatures : List (List Nat) :=
  [ZModemSZStart, ZModemRZStart, ZModemRZEStart, ZModemRZSStart, ZModemRZESStart]

/-- The two end signatures. -/
def endSignatures : List (List Nat) := [ZModemSZEnd, ZModemRZEnd]

/-- The seven signatures that are ZMODEM hex headers. -/
def hexHeaderSignatures : List (List Nat) :=
  [ZModemSZStart, ZModemSZEnd, ZModemRZStart, ZModemRZEStart, ZModemRZSStart,
   ZModemRZESStart, ZModemRZEnd]

/-- Value of a lower-case ASCII hex digit (`0`–`9`, `a`–`f`). -/
def hexDigit? (c : Nat) : Option Nat :=
  if 48 ≤ c ∧ c ≤ 57 then some (c - 48)
  else if 97 ≤ c ∧ c ≤ 102 then some (c - 87)
  else none

/-- The bytes encoded by a run of hex digits, two digits a byte, high digit
first; `none` when a character is not a lower-case hex digit or a digit is
left over. -/
def hexBytes? : List Nat → Option (List Nat)
  | [] => some []
  | [_] => none
  | hi :: lo :: t =>
    match hexDigit? hi, hexDigit? lo, hexBytes? t with
    | some a, some b, some r => some ((16 * a + b) :: r)
    | _, _, _ => none

/-- One bit of CRC-16/XMODEM: shift left, and fold in the polynomial `0x1021`
when the bit shifted out is set. -/
def crcShift (crc : Nat) : Nat :=
  if crc / 32768 % 2 = 1 then Nat.xor (crc * 2 % 65536) 4129 else crc * 2 % 65536

/-- CRC-16/XMODEM over one more byte: the byte is folded into the high half
and eight bits are shifted. -/
def crcByte (crc b : Nat) : Nat :=
  crcShift (crcShift (crcShift (crcShift (crcShift (crcShift (crcShift (crcShift
    (Nat.xor crc (b * 256)))))))))

/-- CRC-16/XMODEM (polynomial `0x1021`, initial value 0, no reflection, no
final xor) of a run of bytes. -/
def crc16Xmodem (bs : List Nat) : Nat := bs.foldl crcByte 0

/-- The number written by a run of lower-case hex digits, most significant
digit first; `none` when a character is not such a digit. -/
def hexValue? (ds : List Nat) : Option Nat :=
  ds.foldl
    (fun acc d =>
      match acc, hexDigit? d with
      | some a, some v => some (16 * a + v)
      | _, _ => none)
    (some 0)

end ZModem

/-! ## `ZKService.GetServers` (toolbox/zookeeper.go, lines 155–165)

A Go string is the list of its characters; the two separators are single
ASCII characters. -/

namespace Toolbox

/-- Go `strings.Contains(s, sep)` for a separator of one character. -/
def stringsContains (s : List Char) (sep : Char) : Bool := decide (sep ∈ s)

/-- Go `strings.Split(s, sep)` for a separator of one character: the
substrings between the separators, one more than there are separators (a
string without separator is returned whole, the empty string as `[""]`). -/
def stringsSplit (sep : Char) : List Char → List (List Char)
  | [] => [[]]
  | c :: t =>
    if c = sep then [] :: stringsSplit sep t
    else
      match stringsSplit sep t with
      | h :: r => (c :: h) :: r
      | [] => [[c]]

/-- Go `strings.Join(parts, sep)` for a separator of one character. -/
def stringsJoin (sep : Char) : List (List Char) → List Char
  | [] => []
  | [p] => p
  | p :: q :: r => p ++ sep :: stringsJoin sep (q :: r)

/-- `ZKService.GetServers`, as a function of the field `address`. -/
def GetServers (address : List Char) : List (List Char) :=
  if stringsContains address ',' then stringsSplit ',' address
  else if stringsContains address ';' then stringsSplit ';' address
  else [address]

end Toolbox

/-! ## `formatErrorField` (internal/context/create.go, lines 331–343) -/

namespace Context

/-- A Go `interface{}` argument as far as `formatErrorField` looks at it: a
value whose dynamic type implements `error`, any other value, or the nil
interface. -/
inductive Value
  | error (e : Nat)
  | other (v : Nat)
  | nil
  deriving DecidableEq, Repr

/-- `formatErrorField(args)`: the pair `(fields, err)`, a nil slice being the
empty list and a nil error `none`; the outer `none` is an index out of range.
The type assertion `args[l-1].(error)` yields `ok = false` and a nil `err` for
a value that is not an error. -/
def formatErrorField (args : List Value) : Option (List Value × Option Nat) :=
  let l := args.length
  if l = 0 then some ([], none)
  else
    match args[l - 1]? with
    | none => none
    | some (Value.error e) => some (args.take (l - 1), some e)
    | some _ => some (args, none)

end Context

namespace ZModem

/-! ## Facts about `bytes.Index` -/

theorem occursAt_iff_head (x y : List Nat) (i : Nat) :
    OccursAt x y i ↔ i ≤ x.length ∧ y <+: x.drop i := by
  unfold OccursAt
  constructor
  · rintro ⟨h1, h2⟩
    refine ⟨by omega, ?_⟩
    rw [← h2]
    exact List.take_prefix _ _
  · rintro ⟨h1, h2⟩
    have hl := h2.length_le
    rw [List.length_drop] at hl
    refine ⟨by omega, ?_⟩
    obtain ⟨t, ht⟩ := h2
    rw [← ht, List.take_left]

theorem occursAt_cons_succ (a : Nat) (t y : List Nat) (j : Nat) :
    OccursAt (a :: t) y (j + 1) ↔ OccursAt t y j := by
  simp only [OccursAt, List.length_cons, List.drop_succ_cons]
  constructor
  · rintro ⟨h1, h2⟩; exact ⟨by omega, h2⟩
  · rintro ⟨h1, h2⟩; exact ⟨by omega, h2⟩

theorem occurs_iff_occursAt (x y : List Nat) : Occurs x y ↔ ∃ i, OccursAt x y i := by
  constructor
  · rintro ⟨pre, post, rfl⟩
    refine ⟨pre.length, ?_, ?_⟩
    · simp only [List.length_append]; omega
    · rw [List.append_assoc, List.drop_left, List.take_left]
  · rintro ⟨i, h1, h2⟩
    refine ⟨x.take i, x.drop (i + y.length), ?_⟩
    have h3 : x.drop i = y ++ x.drop (i + y.length) := by
      conv_lhs => rw [← List.take_append_drop y.length (x.drop i)]
      rw [h2, List.drop_drop, Nat.add_comm]
    rw [List.append_assoc, ← h3, List.take_append_drop]

/-- What `indexOf?` finds: the least position of an occurrence, or that there
is none. -/
theorem indexOf?_spec (x y : List Nat) :
    match indexOf? x y with
    | some i => OccursAt x y i ∧ ∀ j, j < i → ¬ OccursAt x y j
    | none => ∀ j, ¬ OccursAt x y j := by
  induction x with
  | nil =>
    unfold indexOf?
    cases y with
    | nil => simp [OccursAt]
    | cons b y =>
      simp only [List.isEmpty_cons, Bool.false_eq_true, if_false]
      intro j h
      have := h.1
      simp at this
  | cons a t ih =>
    unfold indexOf?
    by_cases hp : y.isPrefixOf (a :: t) = true
    · rw [if_pos hp]
      refine ⟨?_, fun j hj => absurd hj (Nat.not_lt_zero j)⟩
      rw [occursAt_iff_head]
      exact ⟨Nat.zero_le _, by simpa using List.isPrefixOf_iff_prefix.mp hp⟩
    · rw [if_neg hp]
      have h0 : ¬ OccursAt (a :: t) y 0 := by
        rw [occursAt_iff_head]
        rintro ⟨_, h⟩
        exact hp ( List.isPrefixOf_iff_prefix.mpr (by simpa using h))
      cases hi : indexOf? t y with
      | none =>
        rw [hi] at ih
        simp only [Option.map_none']
        intro j
        cases j with
        | zero => exact h0
        | succ j => rw [occursAt_cons_succ]; exact ih j
      | some i =>
        rw [hi] at ih
        simp only [Option.map_some']
        refine ⟨(occursAt_cons_succ a t y i).mpr ih.1, ?_⟩
        intro j hj
        cases j with
        | zero => exact h0
        | succ j => rw [occursAt_cons_succ]; exact ih.2 j (by omega)

theorem indexOf?_eq_some_iff (x y : List Nat) (i : Nat) :
    indexOf? x y = some i ↔ OccursAt x y i ∧ ∀ j, j < i → ¬ OccursAt x y j := by
  have h := indexOf?_spec x y
  constructor
  · intro hi
    rw [hi] at h
    exact h
  · rintro ⟨h1, h2⟩
    cases hk : indexOf? x y with
    | none => rw [hk] at h; exact absurd h1 (h i)
    | some k =>
      rw [hk] at h
      have : k = i := by
        rcases Nat.lt_trichotomy k i with hlt | heq | hgt
        · exact absurd h.1 (h2 k hlt)
        · exact heq
        · exact absurd h1 (h.2 i hgt)
      rw [this]

theorem indexOf?_eq_none_iff (x y : List Nat) :
    indexOf? x y = none ↔ ¬ Occurs x y := by
  have h := indexOf?_spec x y
  rw [occurs_iff_occursAt]
  constructor
  · intro hi
    rw [hi] at h
    rintro ⟨j, hj⟩
    exact h j hj
  · intro hn
    cases hk : indexOf? x y with
    | none => rfl
    | some k => rw [hk] at h; exact absurd ⟨k, h.1⟩ hn

/-! ## Facts about `ByteContains` -/

theorem ByteContains_of_some (x y : List Nat) (i : Nat) (h : indexOf? x y = some i) :
    ByteContains x y =
      some { n := x.take i ++ x.drop (i + y.length), contain := true, mem := shifted x y i } := by
  have hocc := ((indexOf?_eq_some_iff x y i).mp h).1.1
  have hidx : bytesIndex x y = (i : Int) := by simp [bytesIndex, h]
  have hne : ¬ ((i : Int) = -1) := by omega
  have h1 : sliceTo x (i : Int) = some (x.take i) := by
    unfold sliceTo
    rw [if_pos ⟨by omega, by omega⟩]
    simp
  have h2 : sliceFrom x ((i : Int) + (y.length : Int)) = some (x.drop (i + y.length)) := by
    unfold sliceFrom
    rw [if_pos ⟨by omega, by omega⟩]
    have : ((i : Int) + (y.length : Int)).toNat = i + y.length := by omega
    rw [this]
  have h3 : (x.take i).length + (x.drop (i + y.length)).length = x.length - y.length := by
    rw [List.length_take, List.length_drop]; omega
  simp only [ByteContains, hidx, hne, if_false, h1, h2, appendInPlace, h3, shifted]
  rw [if_pos (Nat.sub_le _ _)]

theorem ByteContains_of_none (x y : List Nat) (h : indexOf? x y = none) :
    ByteContains x y = some { n := [], contain := false, mem := x } := by
  simp [ByteContains, bytesIndex, h]

/-- Outcome of `ByteContains` in terms of occurrences: a match is reported
exactly when `y` occurs in `x`, and an unmatched call leaves everything as it was. -/
theorem ByteContains_cases (x y : List Nat) :
    (Occurs x y ∧ ∃ i, indexOf? x y = some i ∧
      ByteContains x y =
        some { n := x.take i ++ x.drop (i + y.length), contain := true, mem := shifted x y i }) ∨
    (¬ Occurs x y ∧ ByteContains x y = some { n := [], contain := false, mem := x }) := by
  cases h : indexOf? x y with
  | none =>
    exact Or.inr ⟨(indexOf?_eq_none_iff x y).mp h, ByteContains_of_none x y h⟩
  | some i =>
    refine Or.inl ⟨?_, i, rfl, ByteContains_of_some x y i h⟩
    exact (occurs_iff_occursAt x y).mpr ⟨i, ((indexOf?_eq_some_iff x y i).mp h).1⟩

theorem shifted_length (x y : List Nat) (i : Nat) (h : OccursAt x y i) :
    (shifted x y i).length = x.length := by
  have := h.1
  simp only [shifted, List.length_append, List.length_take, List.length_drop]
  omega

theorem occurs_length_le (x y : List Nat) (h : Occurs x y) : y.length ≤ x.length := by
  obtain ⟨pre, post, rfl⟩ := h
  simp only [List.length_append]
  omega

/-! ## One pass through the loop body -/

theorem chunk_eq (buff : List Nat) (r : ReadResult) :
    chunk buff r = r.data.take buff.length := by
  simp only [chunk, serviceRead]
  rw [List.take_left]

theorem chunk_length_le (buff : List Nat) (r : ReadResult) :
    (chunk buff r).length ≤ buff.length := by
  rw [chunk_eq, List.length_take]
  omega

theorem serviceRead_eq (buff : List Nat) (r : ReadResult) :
    serviceRead buff r =
      ((chunk buff r).length, r.err, chunk buff r ++ buff.drop (chunk buff r).length) := by
  rw [chunk_eq]
  rfl

theorem read_buff_length (buff : List Nat) (r : ReadResult) :
    (chunk buff r ++ buff.drop (chunk buff r).length).length = buff.length := by
  have := chunk_length_le buff r
  rw [List.length_append, List.length_drop]
  omega

theorem sliceTo_read (c rest : List Nat) :
    sliceTo (c ++ rest) (c.length : Int) = some c := by
  unfold sliceTo
  rw [if_pos ⟨by omega, by rw [List.length_append]; omega⟩]
  simp

theorem trailerCheck_isSome (buff : List Nat) (h : 2 ≤ buff.length) :
    ∃ b, trailerCheck buff = some b := by
  match buff, h with
  | b0 :: b1 :: t, _ =>
    by_cases h0 : b0 = 79
    · exact ⟨decide (b1 = 79), by simp [trailerCheck, ZModemSZEndOO, h0]⟩
    · exact ⟨false, by simp [trailerCheck, ZModemSZEndOO, h0]⟩

/-- A read that reports an error other than `io.EOF` returns at once (line 78). -/
theorem loopBody_error (s : LoopState) (r : ReadResult) (e : GoError)
    (he : r.err = some e) (hne : e ≠ GoError.EOF) :
    loopBody s r = Step.ret (chunk s.buff r).length (some e) := by
  have h2 : ¬ (some e = some GoError.EOF) := fun h => hne (Option.some.inj h)
  simp [loopBody, serviceRead_eq, he, h2]

/-- While the trailer is awaited the body always breaks (lines 83–102). -/
theorem loopBody_awaiting (s : LoopState) (r : ReadResult)
    (hoo : s.ZModemSZOO = true) (hlen : 2 ≤ s.buff.length)
    (he : r.err = none ∨ r.err = some GoError.EOF) :
    ∃ n, loopBody s r = Step.brk n r.err := by
  have hl := read_buff_length s.buff r
  obtain ⟨b, hb⟩ := trailerCheck_isSome
    (chunk s.buff r ++ s.buff.drop (chunk s.buff r).length) (by omega)
  have h1 : ¬ (r.err ≠ none ∧ r.err ≠ some GoError.EOF) := by
    rcases he with h | h <;> simp [h]
  simp only [loopBody, serviceRead_eq, if_neg h1, hoo, if_true, hb]
  cases b <;> simp

/-- After a cancel the body breaks on the next read (lines 103–105). -/
theorem loopBody_cancelled (s : LoopState) (r : ReadResult)
    (hoo : s.ZModemSZOO = false) (hsz : s.ZModemSZ = false)
    (he : r.err = none ∨ r.err = some GoError.EOF) :
    loopBody s r = Step.brk (chunk s.buff r).length r.err := by
  have h1 : ¬ (r.err ≠ none ∧ r.err ≠ some GoError.EOF) := by
    rcases he with h | h <;> simp [h]
  simp [loopBody, serviceRead_eq, if_neg h1, hoo, hsz]

/-- Sending, and the chunk holds the send-end signature (lines 107–109). -/
theorem loopBody_sending_end (s : LoopState) (r : ReadResult) (i : Nat)
    (hoo : s.ZModemSZOO = false) (hsz : s.ZModemSZ = true)
    (he : r.err = none ∨ r.err = some GoError.EOF)
    (hi : indexOf? (chunk s.buff r) ZModemSZEnd = some i) :
    loopBody s r = endOfBody (chunk s.buff r).length r.err
      { ZModemSZOO := true, ZModemSZ := false,
        buff := shifted (chunk s.buff r) ZModemSZEnd i ++
                  s.buff.drop (chunk s.buff r).length } := by
  have h1 : ¬ (r.err ≠ none ∧ r.err ≠ some GoError.EOF) := by
    rcases he with h | h <;> simp [h]
  simp [loopBody, serviceRead_eq, if_neg h1, hoo, hsz, sliceTo_read,
    ByteContains_of_some _ _ _ hi]

/-- Sending, no send-end signature but a cancel in the chunk (lines 110–111). -/
theorem loopBody_sending_cancel (s : LoopState) (r : ReadResult) (i : Nat)
    (hoo : s.ZModemSZOO = false) (hsz : s.ZModemSZ = true)
    (he : r.err = none ∨ r.err = some GoError.EOF)
    (hend : indexOf? (chunk s.buff r) ZModemSZEnd = none)
    (hi : indexOf? (chunk s.buff r) ZModemCancel = some i) :
    loopBody s r = endOfBody (chunk s.buff r).length r.err
      { ZModemSZOO := false, ZModemSZ := false,
        buff := shifted (chunk s.buff r) ZModemCancel i ++
                  s.buff.drop (chunk s.buff r).length } := by
  have h1 : ¬ (r.err ≠ none ∧ r.err ≠ some GoError.EOF) := by
    rcases he with h | h <;> simp [h]
  simp [loopBody, serviceRead_eq, if_neg h1, hoo, hsz, sliceTo_read,
    ByteContains_of_none _ _ hend, ByteContains_of_some _ _ _ hi]

/-- Sending, and the chunk holds neither signature (lines 112–117). -/
theorem loopBody_sending_plain (s : LoopState) (r : ReadResult)
    (hoo : s.ZModemSZOO = false) (hsz : s.ZModemSZ = true)
    (he : r.err = none ∨ r.err = some GoError.EOF)
    (hend : indexOf? (chunk s.buff r) ZModemSZEnd = none)
    (hcan : indexOf? (chunk s.buff r) ZModemCancel = none) :
    loopBody s r = endOfBody (chunk s.buff r).length r.err
      { ZModemSZOO := false, ZModemSZ := true,
        buff := chunk s.buff r ++ s.buff.drop (chunk s.buff r).length } := by
  have h1 : ¬ (r.err ≠ none ∧ r.err ≠ some GoError.EOF) := by
    rcases he with h | h <;> simp [h]
  simp [loopBody, serviceRead_eq, if_neg h1, hoo, hsz, sliceTo_read,
    ByteContains_of_none _ _ hend, ByteContains_of_none _ _ hcan]

theorem endOfBody_next (n : Nat) (err : Option GoError) (s1 s2 : LoopState)
    (h : endOfBody n err s1 = Step.next s2) : s2 = s1 ∧ err ≠ some GoError.EOF := by
  unfold endOfBody at h
  by_cases he : err = some GoError.EOF
  · rw [if_pos he] at h
    cases h
  · rw [if_neg he] at h
    cases h
    exact ⟨rfl, he⟩

theorem endOfBody_eof (n : Nat) (s1 : LoopState) :
    endOfBody n (some GoError.EOF) s1 = Step.brk n none := by
  simp [endOfBody]

theorem endOfBody_nil (n : Nat) (s1 : LoopState) :
    endOfBody n none s1 = Step.next s1 := by
  simp [endOfBody]

theorem err_cases (err : Option GoError) :
    (err = none ∨ err = some GoError.EOF) ∨ ∃ e, err = some e ∧ e ≠ GoError.EOF := by
  cases err with
  | none => exact Or.inl (Or.inl rfl)
  | some e =>
    cases e with
    | EOF => exact Or.inl (Or.inr rfl)
    | other c => exact Or.inr ⟨_, rfl, by simp⟩

/-- While the trailer is awaited the body never goes round again. -/
theorem loopBody_awaiting_not_next (s : LoopState) (r : ReadResult)
    (hoo : s.ZModemSZOO = true) (s2 : LoopState) : loopBody s r ≠ Step.next s2 := by
  by_cases h1 : (r.err ≠ none ∧ r.err ≠ some GoError.EOF)
  · simp only [loopBody, serviceRead_eq, if_pos h1]
    simp
  · simp only [loopBody, serviceRead_eq, if_neg h1, hoo, if_true]
    rcases trailerCheck (chunk s.buff r ++ s.buff.drop (chunk s.buff r).length) with _ | b
    · simp
    · cases b <;> simp

/-- Whenever the body goes round again, the new locals satisfy the invariant. -/
theorem loopBody_next_inv (s s2 : LoopState) (r : ReadResult)
    (h : loopBody s r = Step.next s2) : LoopInv s2 := by
  rcases err_cases r.err with he | ⟨e, he, hne⟩
  swap
  · rw [loopBody_error s r e he hne] at h
    cases h
  cases hoo : s.ZModemSZOO with
  | true => exact absurd h (loopBody_awaiting_not_next s r hoo s2)
  | false =>
    cases hsz : s.ZModemSZ with
    | false =>
      rw [loopBody_cancelled s r hoo hsz he] at h
      cases h
    | true =>
      cases hend : indexOf? (chunk s.buff r) ZModemSZEnd with
      | some i =>
        rw [loopBody_sending_end s r i hoo hsz he hend] at h
        obtain ⟨rfl, _⟩ := endOfBody_next _ _ _ _ h
        have hat := ((indexOf?_eq_some_iff _ _ i).mp hend).1
        have hl := shifted_length _ _ _ hat
        have h20 := hat.1
        intro _
        refine ⟨rfl, ?_⟩
        simp only [List.length_append, hl]
        simp only [ZModemSZEnd, List.length_cons, List.length_nil] at h20
        omega
      | none =>
        cases hcan : indexOf? (chunk s.buff r) ZModemCancel with
        | some i =>
          rw [loopBody_sending_cancel s r i hoo hsz he hend hcan] at h
          obtain ⟨rfl, _⟩ := endOfBody_next _ _ _ _ h
          intro hc
          simp at hc
        | none =>
          rw [loopBody_sending_plain s r hoo hsz he hend hcan] at h
          obtain ⟨rfl, _⟩ := endOfBody_next _ _ _ _ h
          intro hc
          simp at hc

/-! ## The loop as a whole -/

theorem szLoop_cons_next (s s1 : LoopState) (r : ReadResult) (rest : List ReadResult)
    (h : loopBody s r = Step.next s1) :
    szLoop s (r :: rest) = (Event.read :: (szLoop s1 rest).1, (szLoop s1 rest).2) := by
  simp only [szLoop, h]

theorem szLoop_cons_brk (s : LoopState) (r : ReadResult) (rest : List ReadResult)
    (n : Nat) (err : Option GoError) (h : loopBody s r = Step.brk n err) :
    szLoop s (r :: rest) =
      ([Event.read], Outcome.returned n (if err = some GoError.EOF then none else err)) := by
  simp only [szLoop, h]

theorem szLoop_cons_ret (s : LoopState) (r : ReadResult) (rest : List ReadResult)
    (n : Nat) (err : Option GoError) (h : loopBody s r = Step.ret n err) :
    szLoop s (r :: rest) = ([Event.read], Outcome.returned n err) := by
  simp only [szLoop, h]

theorem szLoop_cons_panic (s : LoopState) (r : ReadResult) (rest : List ReadResult)
    (h : loopBody s r = Step.panic) :
    szLoop s (r :: rest) = ([Event.read], Outcome.panicked) := by
  simp only [szLoop, h]

/-- A run that is still waiting after the script `pre` has performed every
read of `pre`, and its locals satisfy the invariant. -/
theorem szLoop_blocked (pre : List ReadResult) :
    ∀ (s s2 : LoopState) (t : List Event), szLoop s pre = (t, Outcome.blocked s2) →
      t = List.replicate pre.length Event.read ∧ (LoopInv s → LoopInv s2) := by
  induction pre with
  | nil =>
    intro s s2 t h
    simp only [szLoop, Prod.mk.injEq, Outcome.blocked.injEq] at h
    obtain ⟨rfl, rfl⟩ := h
    exact ⟨rfl, id⟩
  | cons r rest ih =>
    intro s s2 t h
    unfold szLoop at h
    cases hb : loopBody s r with
    | next s1 =>
      rw [hb] at h
      simp only [Prod.mk.injEq] at h
      obtain ⟨rfl, h2⟩ := h
      have := ih s1 s2 (szLoop s1 rest).1 (Prod.ext rfl h2)
      refine ⟨?_, fun _ => this.2 (loopBody_next_inv s s1 r hb)⟩
      rw [this.1]
      rfl
    | brk n err => rw [hb] at h; simp at h
    | ret n err => rw [hb] at h; simp at h
    | panic => rw [hb] at h; simp at h

/-- A run that is still waiting after `pre` goes on with the reads that follow. -/
theorem szLoop_append (pre rest : List ReadResult) :
    ∀ (s s2 : LoopState) (t : List Event), szLoop s pre = (t, Outcome.blocked s2) →
      szLoop s (pre ++ rest) = (t ++ (szLoop s2 rest).1, (szLoop s2 rest).2) := by
  induction pre with
  | nil =>
    intro s s2 t h
    simp only [szLoop, Prod.mk.injEq, Outcome.blocked.injEq] at h
    obtain ⟨rfl, rfl⟩ := h
    rfl
  | cons r pre ih =>
    intro s s2 t h
    cases hb : loopBody s r with
    | next s1 =>
      rw [szLoop_cons_next s s1 r pre hb] at h
      simp only [Prod.mk.injEq] at h
      obtain ⟨rfl, h2⟩ := h
      have := ih s1 s2 (szLoop s1 pre).1 (Prod.ext rfl h2)
      rw [List.cons_append, szLoop_cons_next s s1 r (pre ++ rest) hb, this]
      rfl
    | brk n err => rw [szLoop_cons_brk s r pre n err hb] at h; simp at h
    | ret n err => rw [szLoop_cons_ret s r pre n err hb] at h; simp at h
    | panic => rw [szLoop_cons_panic s r pre hb] at h; simp at h

/-- The loop performs reads only, at most one for each scripted result. -/
theorem szLoop_trace (rs : List ReadResult) :
    ∀ s : LoopState, ∃ k, k ≤ rs.length ∧ (szLoop s rs).1 = List.replicate k Event.read := by
  induction rs with
  | nil => intro s; exact ⟨0, Nat.le_refl _, rfl⟩
  | cons r rest ih =>
    intro s
    unfold szLoop
    cases hb : loopBody s r with
    | next s1 =>
      obtain ⟨k, hk, ht⟩ := ih s1
      exact ⟨k + 1, by simp only [List.length_cons]; omega, by simp [ht, List.replicate_succ]⟩
    | brk n err => exact ⟨1, by simp only [List.length_cons]; omega, rfl⟩
    | ret n err => exact ⟨1, by simp only [List.length_cons]; omega, rfl⟩
    | panic => exact ⟨1, by simp only [List.length_cons]; omega, rfl⟩

/-! ## `startSZ` on a script -/

theorem startSZ_no_cancel (x buff : List Nat) (service : Service)
    (h : ¬ Occurs x ZModemCancel) :
    startSZ x buff service =
      match service.writeErr with
      | some e => { trace := [Event.write ackFrame], outcome := Outcome.returned 0 (some e) }
      | none =>
        { trace := Event.write ackFrame :: (szLoop (initialState buff) service.reads).1,
          outcome := (szLoop (initialState buff) service.reads).2 } := by
  rcases ByteContains_cases x ZModemCancel with ⟨hocc, _⟩ | ⟨_, hb⟩
  · exact absurd hocc h
  · simp only [startSZ, hb]
    rfl

theorem startSZ_cancel (x buff : List Nat) (service : Service)
    (h : Occurs x ZModemCancel) :
    startSZ x buff service = { trace := [], outcome := Outcome.returned 0 none } := by
  rcases ByteContains_cases x ZModemCancel with ⟨_, i, _, hb⟩ | ⟨hno, _⟩
  · simp only [startSZ, hb]
    rfl
  · exact absurd h hno

/-- A run that waits for a further read has written the acknowledgement and is
inside the loop. -/
theorem startSZ_blocked (x buff : List Nat) (pre : List ReadResult) (s : LoopState)
    (h : (startSZ x buff { writeErr := none, reads := pre }).outcome = Outcome.blocked s) :
    ¬ Occurs x ZModemCancel ∧
    szLoop (initialState buff) pre = (List.replicate pre.length Event.read, Outcome.blocked s) ∧
    LoopInv s := by
  by_cases hx : Occurs x ZModemCancel
  · rw [startSZ_cancel x buff _ hx] at h
    cases h
  · rw [startSZ_no_cancel x buff _ hx] at h
    simp only at h
    have h2 := szLoop_blocked pre (initialState buff) s _ (Prod.ext rfl h)
    refine ⟨hx, ?_, h2.2 (fun hc => by simp [initialState] at hc)⟩
    exact Prod.ext h2.1 h

/-- The run on `pre ++ rest`, when the run on `pre` waits in state `s`. -/
theorem startSZ_append (x buff : List Nat) (pre rest : List ReadResult) (s : LoopState)
    (h : (startSZ x buff { writeErr := none, reads := pre }).outcome = Outcome.blocked s) :
    startSZ x buff { writeErr := none, reads := pre ++ rest } =
      { trace := Event.write ackFrame ::
          (List.replicate pre.length Event.read ++ (szLoop s rest).1),
        outcome := (szLoop s rest).2 } := by
  obtain ⟨hx, hl, _⟩ := startSZ_blocked x buff pre s h
  rw [startSZ_no_cancel x buff _ hx]
  simp only
  rw [szLoop_append pre rest (initialState buff) s _ hl]

/-- A read that reports `io.EOF` ends the loop with a nil error, whatever the
locals and the chunk. -/
theorem szLoop_eof (s : LoopState) (r : ReadResult) (rest : List ReadResult)
    (hinv : LoopInv s) (he : r.err = some GoError.EOF) :
    ∃ n, szLoop s (r :: rest) = ([Event.read], Outcome.returned n none) := by
  have hok : r.err = none ∨ r.err = some GoError.EOF := Or.inr he
  cases hoo : s.ZModemSZOO with
  | true =>
    obtain ⟨n, hn⟩ := loopBody_awaiting s r hoo (hinv hoo).2 hok
    refine ⟨n, ?_⟩
    rw [szLoop_cons_brk s r rest n _ hn, he]
    simp
  | false =>
    cases hsz : s.ZModemSZ with
    | false =>
      refine ⟨(chunk s.buff r).length, ?_⟩
      rw [szLoop_cons_brk s r rest _ _ (loopBody_cancelled s r hoo hsz hok), he]
      simp
    | true =>
      refine ⟨(chunk s.buff r).length, ?_⟩
      have key : loopBody s r = Step.brk (chunk s.buff r).length none := by
        cases hend : indexOf? (chunk s.buff r) ZModemSZEnd with
        | some i => rw [loopBody_sending_end s r i hoo hsz hok hend, he, endOfBody_eof]
        | none =>
          cases hcan : indexOf? (chunk s.buff r) ZModemCancel with
          | some i =>
            rw [loopBody_sending_cancel s r i hoo hsz hok hend hcan, he, endOfBody_eof]
          | none => rw [loopBody_sending_plain s r hoo hsz hok hend hcan, he, endOfBody_eof]
      rw [szLoop_cons_brk s r rest _ _ key]
      simp

/-- While the trailer is awaited, the next read is the last one. -/
theorem szLoop_awaiting (s : LoopState) (r : ReadResult) (rest : List ReadResult)
    (hinv : LoopInv s) (hoo : s.ZModemSZOO = true) :
    ∃ n err, szLoop s (r :: rest) = ([Event.read], Outcome.returned n err) := by
  rcases err_cases r.err with hok | ⟨e, he, hne⟩
  · obtain ⟨n, hn⟩ := loopBody_awaiting s r hoo (hinv hoo).2 hok
    exact ⟨n, _, szLoop_cons_brk s r rest n _ hn⟩
  · exact ⟨_, _, szLoop_cons_ret s r rest _ _ (loopBody_error s r e he hne)⟩

theorem replicate_read_one (k : Nat) :
    List.replicate k Event.read ++ [Event.read] = List.replicate (k + 1) Event.read := by
  rw [List.replicate_succ']

theorem replicate_read_two (k : Nat) :
    List.replicate k Event.read ++ [Event.read, Event.read] =
      List.replicate (k + 2) Event.read := by
  rw [List.replicate_add]
  rfl

/-! ## Claims about `ByteContains` -/

/-- C1: for every buffer `x` and signature `y`, `ByteContains(x, y)` returns
(it does not panic) and its flag `contain` is true if and only if `y` occurs in
`x` as a contiguous run of bytes, `x = pre ++ y ++ post`. -/
theorem C1_contain_iff_occurs (x y : List Nat) :
    ∃ r, ByteContains x y = some r ∧
      (r.contain = true ↔ ∃ pre post, x = pre ++ y ++ post) := by
  rcases ByteContains_cases x y with ⟨hocc, i, _, h⟩ | ⟨hno, h⟩
  · exact ⟨_, h, fun _ => hocc, fun _ => rfl⟩
  · refine ⟨_, h, fun hc => ?_, fun ho => absurd ho hno⟩
    simp at hc

/-- C2: when `y` occurs in `x` and `i` is the least index with
`x[i .. i+len(y)) = y`, `ByteContains(x, y)` reports the match and returns
exactly `x[0..i) ++ x[i+len(y)..]`, a result of length `len(x) - len(y)`. -/
theorem C2_first_occurrence_excised (x y : List Nat) (i : Nat)
    (hi : OccursAt x y i) (hleast : ∀ j, j < i → ¬ OccursAt x y j) :
    ∃ r, ByteContains x y = some r ∧ r.contain = true ∧
      r.n = x.take i ++ x.drop (i + y.length) ∧
      r.n.length = x.length - y.length := by
  have h := ByteContains_of_some x y i ((indexOf?_eq_some_iff x y i).mpr ⟨hi, hleast⟩)
  refine ⟨_, h, rfl, rfl, ?_⟩
  have := hi.1
  simp only [List.length_append, List.length_take, List.length_drop]
  omega

/-- C2 at a concrete input: `[2, 3]` occurs twice in `[1, 2, 3, 2, 3]`, first at 1. -/
theorem C2_first_occurrence_excised_witness :
    OccursAt [1, 2, 3, 2, 3] [2, 3] 1 ∧
    ∃ r, ByteContains [1, 2, 3, 2, 3] [2, 3] = some r ∧ r.contain = true ∧
      r.n = [1, 2, 3] ∧ r.n.length = 3 :=
  ⟨by decide, C2_first_occurrence_excised [1, 2, 3, 2, 3] [2, 3] 1 (by decide)
    (fun j hj => by
      have hj0 : j = 0 := by omega
      subst hj0
      decide)⟩

/-- C3: when `y` does not occur in `x`, `ByteContains(x, y)` returns the nil
result with `contain = false` (and leaves `x` as it was); and no input at all
makes `ByteContains` panic. -/
theorem C3_no_match_and_no_panic (x y : List Nat) :
    (ByteContains x y).isSome = true ∧
    ((¬ ∃ pre post, x = pre ++ y ++ post) →
      ByteContains x y = some { n := [], contain := false, mem := x }) := by
  rcases ByteContains_cases x y with ⟨hocc, i, _, h⟩ | ⟨hno, h⟩
  · exact ⟨by rw [h]; rfl, fun hn => absurd hocc hn⟩
  · exact ⟨by rw [h]; rfl, fun _ => h⟩

/-- C3 at a concrete input: `[3, 3]` does not occur in `[1, 2, 3]`. -/
theorem C3_no_match_and_no_panic_witness :
    ByteContains [1, 2, 3] [3, 3] = some { n := [], contain := false, mem := [1, 2, 3] } :=
  (C3_no_match_and_no_panic [1, 2, 3] [3, 3]).2
    ((indexOf?_eq_none_iff [1, 2, 3] [3, 3]).mp (by decide))

/-- C4 (the code at the failing input): on the buffer `"hi" ++ ZModemCancel ++
"OO\n"`, the call `ByteContains(x, ZModemCancel)` matches and its `append`
overwrites the buffer, so that a following `ByteContains(x, ZModemSZEndOO)` on
the same buffer no longer returns what it returns on the original bytes. -/
theorem C4_buffer_overwritten :
    ∃ r, ByteContains ([104, 105] ++ ZModemCancel ++ [79, 79, 10]) ZModemCancel = some r ∧
      r.contain = true ∧
      r.mem = [104, 105, 79, 79, 10, 24, 24, 8, 8, 8, 8, 8, 79, 79, 10] ∧
      r.mem ≠ [104, 105] ++ ZModemCancel ++ [79, 79, 10] ∧
      ByteContains r.mem ZModemSZEndOO ≠
        ByteContains ([104, 105] ++ ZModemCancel ++ [79, 79, 10]) ZModemSZEndOO :=
  ⟨_, rfl, rfl, by decide, by decide, by decide⟩

/-- C5: for every signature `S` of the table and every split `S = a ++ b` into
two non-empty parts, `ByteContains(a, S)` and `ByteContains(b, S)` both report
no match; more generally every buffer shorter than the signature yields
`contain = false`. -/
theorem C5_split_signature_missed :
    (∀ S, S ∈ signatureTable → ∀ a b : List Nat, S = a ++ b → a ≠ [] → b ≠ [] →
      ByteContains a S = some { n := [], contain := false, mem := a } ∧
      ByteContains b S = some { n := [], contain := false, mem := b }) ∧
    (∀ x y : List Nat, x.length < y.length →
      ByteContains x y = some { n := [], contain := false, mem := x }) := by
  have short : ∀ x y : List Nat, x.length < y.length →
      ByteContains x y = some { n := [], contain := false, mem := x } := by
    intro x y hlt
    rcases ByteContains_cases x y with ⟨hocc, _⟩ | ⟨_, h⟩
    · have := occurs_length_le x y hocc
      omega
    · exact h
  refine ⟨?_, short⟩
  intro S _ a b hS ha hb
  have hla : 0 < a.length := List.length_pos.mpr ha
  have hlb : 0 < b.length := List.length_pos.mpr hb
  have hlen : S.length = a.length + b.length := by rw [hS, List.length_append]
  exact ⟨short a S (by omega), short b S (by omega)⟩

/-- C5 at a concrete split: `ZModemRZCtrlEnd1` cut after its first byte. -/
theorem C5_split_signature_missed_witness :
    ByteContains [13] ZModemRZCtrlEnd1 = some { n := [], contain := false, mem := [13] } ∧
    ByteContains [138, 17] ZModemRZCtrlEnd1 =
      some { n := [], contain := false, mem := [138, 17] } :=
  C5_split_signature_missed.1 ZModemRZCtrlEnd1 (by decide) [13] [138, 17] (by decide)
    (by decide) (by decide)

/-- C6 (as stated, refuted): in the Receiving state `ZModemRZCtrlStart` is a
proper prefix of `ZModemRZEnd`, so the signatures of one state are not
prefix-free. -/
theorem C6_prefix_free_counterexample :
    ¬ (∀ st, st ∈ [idleSignatures, sendingSignatures, receivingSignatures] →
        ∀ s, s ∈ st → ∀ t, t ∈ st → s ≠ t → ¬ s <+: t) := by
  intro h
  exact h receivingSignatures (by decide) ZModemRZCtrlStart (by decide) ZModemRZEnd (by decide)
    (by decide) (by decide)

/-- C6 (amended): no signature of the Idle set or of the Sending set (with the
trailer) is a prefix of another signature of the same set; in the Receiving set
the only pairs of distinct signatures with one a prefix of the other are
`ZModemRZCtrlStart`, a prefix of `ZModemRZEnd`, and `ZModemRZCtrlEnd2`, a
prefix of `ZModemRZCtrlEnd1`. -/
theorem C6_prefix_free_amended :
    (∀ st, st ∈ [idleSignatures, sendingSignatures] →
      ∀ s, s ∈ st → ∀ t, t ∈ st → s ≠ t → ¬ s <+: t) ∧
    (∀ s, s ∈ receivingSignatures → ∀ t, t ∈ receivingSignatures → s ≠ t →
      (s <+: t ↔ (s = ZModemRZCtrlStart ∧ t = ZModemRZEnd) ∨
                 (s = ZModemRZCtrlEnd2 ∧ t = ZModemRZCtrlEnd1))) := by
  constructor
  · decide
  · decide

/-- C6 (amended) at a concrete pair of the Sending set. -/
theorem C6_prefix_free_amended_witness :
    ¬ ZModemSZEnd <+: ZModemCancel :=
  C6_prefix_free_amended.1 sendingSignatures (by decide) ZModemSZEnd (by decide)
    ZModemCancel (by decide) (by decide)

/-! ## Claims about `startSZ` -/

/-- C7: when the initial chunk `x` holds no cancel signature, the transport
operations of `startSZ` are one write of the 21-byte acknowledgement frame
followed by reads only: the frame is written exactly once, before the first
read, and nothing else is ever written. -/
theorem C7_ack_written_once (x buff : List Nat) (service : Service)
    (h : ¬ Occurs x ZModemCancel) :
    ackFrame.length = 21 ∧
    ∃ k, k ≤ service.reads.length ∧
      (startSZ x buff service).trace = Event.write ackFrame :: List.replicate k Event.read := by
  refine ⟨by decide, ?_⟩
  rw [startSZ_no_cancel x buff service h]
  cases hw : service.writeErr with
  | some e => exact ⟨0, Nat.zero_le _, rfl⟩
  | none =>
    obtain ⟨k, hk, ht⟩ := szLoop_trace service.reads (initialState buff)
    exact ⟨k, hk, by simp only [ht]⟩

/-- C7 at a concrete run: two payload reads, then end of stream. -/
theorem C7_ack_written_once_witness :
    ackFrame.length = 21 ∧
    ∃ k, k ≤ 2 ∧
      (startSZ [1, 2] [0, 0, 0, 0]
        { writeErr := none,
          reads := [{ data := [7, 8], err := none },
                    { data := [9], err := some GoError.EOF }] }).trace =
        Event.write ackFrame :: List.replicate k Event.read :=
  C7_ack_written_once [1, 2] [0, 0, 0, 0]
    { writeErr := none,
      reads := [{ data := [7, 8], err := none }, { data := [9], err := some GoError.EOF }] }
    ((indexOf?_eq_none_iff [1, 2] ZModemCancel).mp (by decide))

/-- C8: a transport failure is fatal and handed back unchanged. If the write
of the acknowledgement returns the error `e`, `startSZ` returns `err = e` having
done nothing but that write. If a read returns an error `e` other than `io.EOF`,
`startSZ` returns `err = e` (with the `n` of that read) and that read is its
last transport operation, whatever further reads the transport would serve. -/
theorem C8_transport_error_fatal :
    (∀ (x buff : List Nat) (e : GoError) (reads : List ReadResult),
      ¬ Occurs x ZModemCancel →
      startSZ x buff { writeErr := some e, reads := reads } =
        { trace := [Event.write ackFrame], outcome := Outcome.returned 0 (some e) }) ∧
    (∀ (x buff : List Nat) (pre : List ReadResult) (r : ReadResult) (rest : List ReadResult)
       (s : LoopState) (e : GoError),
      (startSZ x buff { writeErr := none, reads := pre }).outcome = Outcome.blocked s →
      r.err = some e → e ≠ GoError.EOF →
      startSZ x buff { writeErr := none, reads := pre ++ r :: rest } =
        { trace := Event.write ackFrame :: List.replicate (pre.length + 1) Event.read,
          outcome := Outcome.returned (chunk s.buff r).length (some e) }) := by
  constructor
  · intro x buff e reads hx
    rw [startSZ_no_cancel x buff _ hx]
  · intro x buff pre r rest s e hpre he hne
    rw [startSZ_append x buff pre (r :: rest) s hpre,
      szLoop_cons_ret s r rest _ _ (loopBody_error s r e he hne)]
    simp only [replicate_read_one]

/-- C8 at a concrete run: the second read fails with a non-EOF error. -/
theorem C8_transport_error_fatal_witness :
    startSZ [1, 2] [0, 0, 0, 0]
      { writeErr := none,
        reads := [{ data := [7, 8], err := none }] ++
                 { data := [9], err := some (GoError.other 5) } ::
                 [{ data := [6], err := none }] } =
      { trace := Event.write ackFrame :: List.replicate 2 Event.read,
        outcome := Outcome.returned 1 (some (GoError.other 5)) } :=
  C8_transport_error_fatal.2 [1, 2] [0, 0, 0, 0] [{ data := [7, 8], err := none }]
    { data := [9], err := some (GoError.other 5) } [{ data := [6], err := none }]
    { ZModemSZOO := false, ZModemSZ := true, buff := [7, 8, 0, 0] } (GoError.other 5)
    (by decide) rfl (by decide)

/-- C9: end of stream is a clean termination. In whatever loop state the run
is waiting (sending, cancelled or awaiting the trailer) and whatever the chunk
holds, a read that returns `io.EOF` makes `startSZ` return with `err = nil`,
that read being its last transport operation. -/
theorem C9_eof_clean_termination (x buff : List Nat) (pre : List ReadResult)
    (r : ReadResult) (rest : List ReadResult) (s : LoopState)
    (hpre : (startSZ x buff { writeErr := none, reads := pre }).outcome = Outcome.blocked s)
    (he : r.err = some GoError.EOF) :
    ∃ n, startSZ x buff { writeErr := none, reads := pre ++ r :: rest } =
      { trace := Event.write ackFrame :: List.replicate (pre.length + 1) Event.read,
        outcome := Outcome.returned n none } := by
  obtain ⟨_, _, hinv⟩ := startSZ_blocked x buff pre s hpre
  obtain ⟨n, hn⟩ := szLoop_eof s r rest hinv he
  refine ⟨n, ?_⟩
  rw [startSZ_append x buff pre (r :: rest) s hpre, hn]
  simp only [replicate_read_one]

/-- C9 at a concrete run: end of stream while the trailer is awaited. -/
theorem C9_eof_clean_termination_witness :
    ∃ n, startSZ [1, 2] (List.replicate 24 0)
      { writeErr := none,
        reads := [{ data := ZModemSZEnd, err := none }] ++
                 { data := [79], err := some GoError.EOF } ::
                 [{ data := [6], err := none }] } =
      { trace := Event.write ackFrame :: List.replicate 2 Event.read,
        outcome := Outcome.returned n none } :=
  C9_eof_clean_termination [1, 2] (List.replicate 24 0) [{ data := ZModemSZEnd, err := none }]
    { data := [79], err := some GoError.EOF } [{ data := [6], err := none }]
    { ZModemSZOO := true, ZModemSZ := false,
      buff := [42, 42, 24, 66, 48, 56, 48, 48, 48, 48, 48, 48, 48, 48, 48, 50, 50, 100, 13,
               138, 0, 0, 0, 0] }
    (by decide) rfl

/-- C10: when a chunk read without error in the sending state holds the
send-end signature, `startSZ` does not return on it: it waits in exactly one
more read with the locals of the awaiting-trailer state, and whatever that
next read delivers (trailer or not, error or not) `startSZ` returns after it. -/
theorem C10_send_end_awaits_one_read (x buff : List Nat) (pre : List ReadResult)
    (r : ReadResult) (s : LoopState)
    (hpre : (startSZ x buff { writeErr := none, reads := pre }).outcome = Outcome.blocked s)
    (hsz : s.ZModemSZ = true) (he : r.err = none)
    (hocc : Occurs (chunk s.buff r) ZModemSZEnd) :
    (∃ s2, startSZ x buff { writeErr := none, reads := pre ++ [r] } =
        { trace := Event.write ackFrame :: List.replicate (pre.length + 1) Event.read,
          outcome := Outcome.blocked s2 } ∧
      s2.ZModemSZOO = true ∧ s2.ZModemSZ = false) ∧
    (∀ (r2 : ReadResult) (rest : List ReadResult), ∃ n err,
      startSZ x buff { writeErr := none, reads := pre ++ r :: r2 :: rest } =
        { trace := Event.write ackFrame :: List.replicate (pre.length + 2) Event.read,
          outcome := Outcome.returned n err }) := by
  obtain ⟨_, _, hinv⟩ := startSZ_blocked x buff pre s hpre
  have hoo : s.ZModemSZOO = false := by
    cases h : s.ZModemSZOO with
    | false => rfl
    | true =>
      have := (hinv h).1
      rw [hsz] at this
      cases this
  obtain ⟨i, hi⟩ : ∃ i, indexOf? (chunk s.buff r) ZModemSZEnd = some i := by
    cases h : indexOf? (chunk s.buff r) ZModemSZEnd with
    | none => exact absurd hocc ((indexOf?_eq_none_iff _ _).mp h)
    | some i => exact ⟨i, rfl⟩
  have hb := loopBody_sending_end s r i hoo hsz (Or.inl he) hi
  rw [he, endOfBody_nil] at hb
  constructor
  · refine ⟨{ ZModemSZOO := true, ZModemSZ := false,
              buff := shifted (chunk s.buff r) ZModemSZEnd i ++
                        s.buff.drop (chunk s.buff r).length }, ?_, rfl, rfl⟩
    rw [startSZ_append x buff pre [r] s hpre, szLoop_cons_next s _ r [] hb]
    simp only [szLoop, replicate_read_one]
  · intro r2 rest
    obtain ⟨n, err, hn⟩ := szLoop_awaiting _ r2 rest (loopBody_next_inv s _ r hb) rfl
    refine ⟨n, err, ?_⟩
    rw [startSZ_append x buff pre (r :: r2 :: rest) s hpre,
      szLoop_cons_next s _ r (r2 :: rest) hb, hn]
    simp only [replicate_read_two]

/-- C10 at a concrete run: one payload read, then a chunk that is the
send-end signature. -/
theorem C10_send_end_awaits_one_read_witness :
    (∃ s2, startSZ [1, 2] (List.replicate 24 0)
        { writeErr := none,
          reads := [{ data := [7, 8], err := none }] ++
                   [{ data := ZModemSZEnd, err := none }] } =
        { trace := Event.write ackFrame :: List.replicate 2 Event.read,
          outcome := Outcome.blocked s2 } ∧
      s2.ZModemSZOO = true ∧ s2.ZModemSZ = false) ∧
    (∀ (r2 : ReadResult) (rest : List ReadResult), ∃ n err,
      startSZ [1, 2] (List.replicate 24 0)
        { writeErr := none,
          reads := [{ data := [7, 8], err := none }] ++
                   { data := ZModemSZEnd, err := none } :: r2 :: rest } =
        { trace := Event.write ackFrame :: List.replicate 3 Event.read,
          outcome := Outcome.returned n err }) :=
  C10_send_end_awaits_one_read [1, 2] (List.replicate 24 0) [{ data := [7, 8], err := none }]
    { data := ZModemSZEnd, err := none }
    { ZModemSZOO := false, ZModemSZ := true, buff := [7, 8] ++ List.replicate 22 0 }
    (by decide) rfl rfl ⟨[], [], by decide⟩

/-! ## Further facts about the loop -/

/-- In a reachable state with `ZModemSZ` set the trailer is not awaited. -/
theorem sending_not_awaiting (s : LoopState) (hinv : LoopInv s) (hsz : s.ZModemSZ = true) :
    s.ZModemSZOO = false := by
  cases h : s.ZModemSZOO with
  | false => rfl
  | true =>
    have := (hinv h).1
    rw [hsz] at this
    cases this

theorem occurs_indexOf? (c y : List Nat) (h : Occurs c y) : ∃ i, indexOf? c y = some i := by
  cases hi : indexOf? c y with
  | none => exact absurd h ((indexOf?_eq_none_iff _ _).mp hi)
  | some i => exact ⟨i, rfl⟩

theorem trailerCheck_cons_cons (a b : Nat) (t : List Nat) :
    trailerCheck (a :: b :: t) = some (decide (a = 79) && decide (b = 79)) := by
  by_cases ha : a = 79
  · simp [trailerCheck, ZModemSZEndOO, ha]
  · simp [trailerCheck, ZModemSZEndOO, ha]

/-- The trailer check while the trailer is awaited, for a read without a fatal
error: both arms of `if n == 2` do the same. -/
theorem loopBody_awaiting_eq (s : LoopState) (r : ReadResult)
    (hoo : s.ZModemSZOO = true) (he : r.err = none ∨ r.err = some GoError.EOF) :
    loopBody s r =
      match trailerCheck (chunk s.buff r ++ s.buff.drop (chunk s.buff r).length) with
      | none => Step.panic
      | some true => Step.brk 0 r.err
      | some false => Step.brk (chunk s.buff r).length r.err := by
  have h1 : ¬ (r.err ≠ none ∧ r.err ≠ some GoError.EOF) := by
    rcases he with h | h <;> simp [h]
  simp only [loopBody, serviceRead_eq, if_neg h1, hoo, if_true]
  by_cases h2 : (chunk s.buff r).length = 2
  · rw [if_pos h2]
  · rw [if_neg h2]

/-- The run on `pre ++ r :: rest`, when the run on `pre` waits in state `s`
and the body goes round on `r`. -/
theorem startSZ_step (x buff : List Nat) (pre : List ReadResult) (r : ReadResult)
    (s s2 : LoopState)
    (hpre : (startSZ x buff { writeErr := none, reads := pre }).outcome = Outcome.blocked s)
    (hb : loopBody s r = Step.next s2) (rest : List ReadResult) :
    startSZ x buff { writeErr := none, reads := pre ++ r :: rest } =
      { trace := Event.write ackFrame ::
          (List.replicate (pre.length + 1) Event.read ++ (szLoop s2 rest).1),
        outcome := (szLoop s2 rest).2 } := by
  rw [startSZ_append x buff pre (r :: rest) s hpre, szLoop_cons_next s s2 r rest hb]
  simp only [List.replicate_succ', List.append_assoc, List.singleton_append]

/-- The run on `pre ++ r :: rest`, when the run on `pre` waits in state `s`
and the body breaks on `r`. -/
theorem startSZ_break (x buff : List Nat) (pre : List ReadResult) (r : ReadResult)
    (s : LoopState) (n : Nat) (err : Option GoError)
    (hpre : (startSZ x buff { writeErr := none, reads := pre }).outcome = Outcome.blocked s)
    (hb : loopBody s r = Step.brk n err) (rest : List ReadResult) :
    startSZ x buff { writeErr := none, reads := pre ++ r :: rest } =
      { trace := Event.write ackFrame :: List.replicate (pre.length + 1) Event.read,
        outcome := Outcome.returned n (if err = some GoError.EOF then none else err) } := by
  rw [startSZ_append x buff pre (r :: rest) s hpre, szLoop_cons_brk s r rest n err hb]
  simp only [replicate_read_one]

theorem startSZ_nil_rest (x buff : List Nat) (pre : List ReadResult) (r : ReadResult)
    (s s2 : LoopState)
    (hpre : (startSZ x buff { writeErr := none, reads := pre }).outcome = Outcome.blocked s)
    (hb : loopBody s r = Step.next s2) :
    startSZ x buff { writeErr := none, reads := pre ++ [r] } =
      { trace := Event.write ackFrame :: List.replicate (pre.length + 1) Event.read,
        outcome := Outcome.blocked s2 } := by
  rw [startSZ_step x buff pre r s s2 hpre hb []]
  simp only [szLoop, List.append_nil]

/-- The buffer is as long after a pass through the body as before. -/
theorem loopBody_next_length (s s2 : LoopState) (r : ReadResult)
    (h : loopBody s r = Step.next s2) : s2.buff.length = s.buff.length := by
  have hl := read_buff_length s.buff r
  rw [List.length_append] at hl
  rcases err_cases r.err with he | ⟨e, he, hne⟩
  swap
  · rw [loopBody_error s r e he hne] at h
    cases h
  cases hoo : s.ZModemSZOO with
  | true => exact absurd h (loopBody_awaiting_not_next s r hoo s2)
  | false =>
    cases hsz : s.ZModemSZ with
    | false =>
      rw [loopBody_cancelled s r hoo hsz he] at h
      cases h
    | true =>
      cases hend : indexOf? (chunk s.buff r) ZModemSZEnd with
      | some i =>
        rw [loopBody_sending_end s r i hoo hsz he hend] at h
        obtain ⟨rfl, _⟩ := endOfBody_next _ _ _ _ h
        have := shifted_length _ _ _ ((indexOf?_eq_some_iff _ _ i).mp hend).1
        simp only [List.length_append, this]
        exact hl
      | none =>
        cases hcan : indexOf? (chunk s.buff r) ZModemCancel with
        | some i =>
          rw [loopBody_sending_cancel s r i hoo hsz he hend hcan] at h
          obtain ⟨rfl, _⟩ := endOfBody_next _ _ _ _ h
          have := shifted_length _ _ _ ((indexOf?_eq_some_iff _ _ i).mp hcan).1
          simp only [List.length_append, this]
          exact hl
        | none =>
          rw [loopBody_sending_plain s r hoo hsz he hend hcan] at h
          obtain ⟨rfl, _⟩ := endOfBody_next _ _ _ _ h
          simp only [List.length_append]
          exact hl

/-- A chunk that begins with `'O','O'`, read while the trailer is awaited with
a buffer of two bytes or more, ends the loop with `n = 0`. -/
theorem loopBody_awaiting_trailer (s : LoopState) (r : ReadResult) (t : List Nat)
    (hoo : s.ZModemSZOO = true) (hlen : 2 ≤ s.buff.length)
    (he : r.err = none ∨ r.err = some GoError.EOF) (hd : r.data = 79 :: 79 :: t) :
    loopBody s r = Step.brk 0 r.err := by
  rw [loopBody_awaiting_eq s r hoo he, chunk_eq, hd]
  obtain ⟨k, hk⟩ : ∃ k, s.buff.length = k + 2 := ⟨s.buff.length - 2, by omega⟩
  rw [hk]
  simp only [List.take_succ_cons, List.cons_append, trailerCheck_cons_cons]
  simp

/-- A chunk of two bytes or more that does not begin with `'O','O'`, read while
the trailer is awaited, ends the loop with its own `n`. -/
theorem loopBody_awaiting_other (s : LoopState) (r : ReadResult) (a b : Nat) (t : List Nat)
    (hoo : s.ZModemSZOO = true) (hlen : 2 ≤ s.buff.length)
    (he : r.err = none ∨ r.err = some GoError.EOF) (hd : r.data = a :: b :: t)
    (hab : ¬ (a = 79 ∧ b = 79)) :
    loopBody s r = Step.brk (chunk s.buff r).length r.err := by
  rw [loopBody_awaiting_eq s r hoo he, chunk_eq, hd]
  obtain ⟨k, hk⟩ : ∃ k, s.buff.length = k + 2 := ⟨s.buff.length - 2, by omega⟩
  rw [hk]
  simp only [List.take_succ_cons, List.cons_append, trailerCheck_cons_cons]
  have : (decide (a = 79) && decide (b = 79)) = false := by
    simpa using hab
  rw [this]

theorem chunk_congr (b1 b2 : List Nat) (r : ReadResult) (h : b1.length = b2.length) :
    chunk b1 r = chunk b2 r := by
  rw [chunk_eq, chunk_eq, h]

/-- Every pass through the loop starts with a read. -/
theorem szLoop_cons_trace (s : LoopState) (r : ReadResult) (rest : List ReadResult) :
    ∃ k, (szLoop s (r :: rest)).1 = List.replicate (k + 1) Event.read := by
  cases hb : loopBody s r with
  | next s1 =>
    obtain ⟨k, _, ht⟩ := szLoop_trace rest s1
    exact ⟨k, by rw [szLoop_cons_next s s1 r rest hb, ht]; rfl⟩
  | brk n err => exact ⟨0, by rw [szLoop_cons_brk s r rest n err hb]; rfl⟩
  | ret n err => exact ⟨0, by rw [szLoop_cons_ret s r rest n err hb]; rfl⟩
  | panic => exact ⟨0, by rw [szLoop_cons_panic s r rest hb]; rfl⟩

/-- The read that follows a cancel is the last one; its `n` and error are
handed back (`io.EOF` as nil). -/
theorem szLoop_cancelled (s : LoopState) (r : ReadResult) (rest : List ReadResult)
    (hoo : s.ZModemSZOO = false) (hsz : s.ZModemSZ = false) :
    szLoop s (r :: rest) =
      ([Event.read], Outcome.returned (chunk s.buff r).length
        (if r.err = some GoError.EOF then none else r.err)) := by
  rcases err_cases r.err with hok | ⟨e, he, hne⟩
  · rw [szLoop_cons_brk s r rest _ _ (loopBody_cancelled s r hoo hsz hok)]
  · rw [szLoop_cons_ret s r rest _ _ (loopBody_error s r e he hne), he]
    have h2 : ¬ (some e = some GoError.EOF) := fun h => hne (Option.some.inj h)
    rw [if_neg h2]

/-! ## Claims about the states of the loop -/

/-- C11 (as stated, refuted): the chunk `ZModemCancel ++ ZModemSZEnd`, read
while sending, holds both signatures, yet the run then awaits the trailer
(`ZModemSZOO` is set) and applies the trailer check to the next chunk: on
`"OOabc"` it returns `n = 0`, where a cancelled run returns `n = 5`. -/
theorem C11_cancel_first_counterexample :
    Occurs (ZModemCancel ++ ZModemSZEnd) ZModemCancel ∧
    Occurs (ZModemCancel ++ ZModemSZEnd) ZModemSZEnd ∧
    (∃ s2, (startSZ [] (List.replicate 32 0)
        { writeErr := none,
          reads := [{ data := ZModemCancel ++ ZModemSZEnd, err := none }] }).outcome =
        Outcome.blocked s2 ∧ s2.ZModemSZOO = true) ∧
    startSZ [] (List.replicate 32 0)
      { writeErr := none,
        reads := [{ data := ZModemCancel ++ ZModemSZEnd, err := none },
                  { data := [79, 79, 97, 98, 99], err := none }] } =
      { trace := [Event.write ackFrame, Event.read, Event.read],
        outcome := Outcome.returned 0 none } :=
  ⟨⟨[], ZModemSZEnd, by decide⟩, ⟨ZModemCancel, [], by decide⟩, ⟨_, rfl, rfl⟩, by decide⟩

/-- C11 (amended): within one chunk the send-end signature is checked before
Cancel. For every chunk read without error in the sending state that holds
both `ZModemCancel` and `ZModemSZEnd`, `startSZ` enters the awaiting-trailer
state and applies the trailer check to the following chunk: when that chunk
begins with `'O','O'` the run returns `n = 0`. -/
theorem C11_end_checked_before_cancel (x buff : List Nat) (pre : List ReadResult)
    (r : ReadResult) (s : LoopState)
    (hpre : (startSZ x buff { writeErr := none, reads := pre }).outcome = Outcome.blocked s)
    (hsz : s.ZModemSZ = true) (he : r.err = none)
    (_hcan : Occurs (chunk s.buff r) ZModemCancel)
    (hend : Occurs (chunk s.buff r) ZModemSZEnd) :
    (∃ s2, startSZ x buff { writeErr := none, reads := pre ++ [r] } =
        { trace := Event.write ackFrame :: List.replicate (pre.length + 1) Event.read,
          outcome := Outcome.blocked s2 } ∧
      s2.ZModemSZOO = true ∧ s2.ZModemSZ = false) ∧
    (∀ (r2 : ReadResult) (t : List Nat) (more : List ReadResult),
      r2.err = none → r2.data = 79 :: 79 :: t →
      startSZ x buff { writeErr := none, reads := pre ++ r :: r2 :: more } =
        { trace := Event.write ackFrame :: List.replicate (pre.length + 2) Event.read,
          outcome := Outcome.returned 0 none }) := by
  obtain ⟨_, _, hinv⟩ := startSZ_blocked x buff pre s hpre
  have hoo := sending_not_awaiting s hinv hsz
  obtain ⟨i, hi⟩ := occurs_indexOf? _ _ hend
  have hb := loopBody_sending_end s r i hoo hsz (Or.inl he) hi
  rw [he, endOfBody_nil] at hb
  constructor
  · exact ⟨_, startSZ_nil_rest x buff pre r s _ hpre hb, rfl, rfl⟩
  · intro r2 t more he2 hd
    have hinv2 := loopBody_next_inv s _ r hb
    have hb2 := loopBody_awaiting_trailer _ r2 t rfl (hinv2 rfl).2 (Or.inl he2) hd
    rw [startSZ_step x buff pre r s _ hpre hb (r2 :: more),
      szLoop_cons_brk _ r2 more _ _ hb2, he2]
    simp only [replicate_read_one]
    rfl

/-- C11 (amended) at a concrete run: the chunk `ZModemCancel ++ ZModemSZEnd`
right after the acknowledgement. -/
theorem C11_end_checked_before_cancel_witness :
    (∃ s2, startSZ [] (List.replicate 32 0)
        { writeErr := none,
          reads := [] ++ [{ data := ZModemCancel ++ ZModemSZEnd, err := none }] } =
        { trace := Event.write ackFrame :: List.replicate 1 Event.read,
          outcome := Outcome.blocked s2 } ∧
      s2.ZModemSZOO = true ∧ s2.ZModemSZ = false) ∧
    (∀ (r2 : ReadResult) (t : List Nat) (more : List ReadResult),
      r2.err = none → r2.data = 79 :: 79 :: t →
      startSZ [] (List.replicate 32 0)
        { writeErr := none,
          reads := [] ++ { data := ZModemCancel ++ ZModemSZEnd, err := none } :: r2 :: more } =
        { trace := Event.write ackFrame :: List.replicate 2 Event.read,
          outcome := Outcome.returned 0 none }) :=
  C11_end_checked_before_cancel [] (List.replicate 32 0) []
    { data := ZModemCancel ++ ZModemSZEnd, err := none } (initialState (List.replicate 32 0))
    (by decide) rfl rfl ⟨[], ZModemSZEnd, by decide⟩ ⟨ZModemCancel, [], by decide⟩

/-- C12 (as stated, refuted): after the chunk `ZModemCancel ++ "ab"`, read
without error while sending, the run has not returned but waits in a further
read; and the `n` it returns afterwards is the 1 of the following chunk, not the
12 of the chunk with the cancel match. -/
theorem C12_cancel_immediate_counterexample :
    Occurs (ZModemCancel ++ [97, 98]) ZModemCancel ∧
    ¬ Occurs (ZModemCancel ++ [97, 98]) ZModemSZEnd ∧
    (∃ s2, startSZ [] (List.replicate 32 0)
        { writeErr := none,
          reads := [{ data := ZModemCancel ++ [97, 98], err := none }] } =
        { trace := [Event.write ackFrame, Event.read], outcome := Outcome.blocked s2 }) ∧
    startSZ [] (List.replicate 32 0)
      { writeErr := none,
        reads := [{ data := ZModemCancel ++ [97, 98], err := none },
                  { data := [99], err := none }] } =
      { trace := [Event.write ackFrame, Event.read, Event.read],
        outcome := Outcome.returned 1 none } :=
  ⟨⟨[], [97, 98], by decide⟩, (indexOf?_eq_none_iff _ _).mp (by decide), ⟨_, rfl⟩, by decide⟩

/-- C12 (amended): when a chunk read without error in the sending state holds
`ZModemCancel` and no `ZModemSZEnd`, `startSZ` does not return on that chunk:
it goes into the cancelled state, performs exactly one further read and returns
after it, with the `n` and the error of that following read (`io.EOF` as nil). -/
theorem C12_cancel_reads_once_more (x buff : List Nat) (pre : List ReadResult)
    (r : ReadResult) (s : LoopState)
    (hpre : (startSZ x buff { writeErr := none, reads := pre }).outcome = Outcome.blocked s)
    (hsz : s.ZModemSZ = true) (he : r.err = none)
    (hcan : Occurs (chunk s.buff r) ZModemCancel)
    (hend : ¬ Occurs (chunk s.buff r) ZModemSZEnd) :
    (∃ s2, startSZ x buff { writeErr := none, reads := pre ++ [r] } =
        { trace := Event.write ackFrame :: List.replicate (pre.length + 1) Event.read,
          outcome := Outcome.blocked s2 } ∧
      s2.ZModemSZOO = false ∧ s2.ZModemSZ = false) ∧
    (∀ (r2 : ReadResult) (more : List ReadResult),
      startSZ x buff { writeErr := none, reads := pre ++ r :: r2 :: more } =
        { trace := Event.write ackFrame :: List.replicate (pre.length + 2) Event.read,
          outcome := Outcome.returned (chunk s.buff r2).length
            (if r2.err = some GoError.EOF then none else r2.err) }) := by
  obtain ⟨_, _, hinv⟩ := startSZ_blocked x buff pre s hpre
  have hoo := sending_not_awaiting s hinv hsz
  obtain ⟨i, hi⟩ := occurs_indexOf? _ _ hcan
  have hb := loopBody_sending_cancel s r i hoo hsz (Or.inl he)
    ((indexOf?_eq_none_iff _ _).mpr hend) hi
  rw [he, endOfBody_nil] at hb
  constructor
  · exact ⟨_, startSZ_nil_rest x buff pre r s _ hpre hb, rfl, rfl⟩
  · intro r2 more
    have hl := loopBody_next_length s _ r hb
    rw [startSZ_step x buff pre r s _ hpre hb (r2 :: more),
      szLoop_cancelled _ r2 more rfl rfl, chunk_congr _ _ r2 hl]
    simp only [replicate_read_one]

/-- C12 (amended) at a concrete run: the chunk `ZModemCancel ++ "ab"` right
after the acknowledgement. -/
theorem C12_cancel_reads_once_more_witness :
    (∃ s2, startSZ [] (List.replicate 32 0)
        { writeErr := none,
          reads := [] ++ [{ data := ZModemCancel ++ [97, 98], err := none }] } =
        { trace := Event.write ackFrame :: List.replicate 1 Event.read,
          outcome := Outcome.blocked s2 } ∧
      s2.ZModemSZOO = false ∧ s2.ZModemSZ = false) ∧
    (∀ (r2 : ReadResult) (more : List ReadResult),
      startSZ [] (List.replicate 32 0)
        { writeErr := none,
          reads := [] ++ { data := ZModemCancel ++ [97, 98], err := none } :: r2 :: more } =
        { trace := Event.write ackFrame :: List.replicate 2 Event.read,
          outcome := Outcome.returned (chunk (List.replicate 32 0) r2).length
            (if r2.err = some GoError.EOF then none else r2.err) }) :=
  C12_cancel_reads_once_more [] (List.replicate 32 0) []
    { data := ZModemCancel ++ [97, 98], err := none } (initialState (List.replicate 32 0))
    (by decide) rfl rfl ⟨[], [97, 98], by decide⟩ ((indexOf?_eq_none_iff _ _).mp (by decide))

/-- C13: trailer present. When payload reads are followed by a chunk, read
without error while sending, that holds `ZModemSZEnd`, and the next read
delivers exactly the two trailer bytes `'O','O'` (with a nil error or
`io.EOF`), `startSZ` returns `n = 0` and `err = nil`, and its transport
operations are the one acknowledgement write followed by reads only. -/
theorem C13_trailer_consumed (x buff : List Nat) (pre : List ReadResult)
    (r r2 : ReadResult) (more : List ReadResult) (s : LoopState)
    (hpre : (startSZ x buff { writeErr := none, reads := pre }).outcome = Outcome.blocked s)
    (hsz : s.ZModemSZ = true) (he : r.err = none)
    (hend : Occurs (chunk s.buff r) ZModemSZEnd)
    (hd : r2.data = ZModemSZEndOO) (he2 : r2.err = none ∨ r2.err = some GoError.EOF) :
    startSZ x buff { writeErr := none, reads := pre ++ r :: r2 :: more } =
      { trace := Event.write ackFrame :: List.replicate (pre.length + 2) Event.read,
        outcome := Outcome.returned 0 none } := by
  obtain ⟨_, _, hinv⟩ := startSZ_blocked x buff pre s hpre
  have hoo := sending_not_awaiting s hinv hsz
  obtain ⟨i, hi⟩ := occurs_indexOf? _ _ hend
  have hb := loopBody_sending_end s r i hoo hsz (Or.inl he) hi
  rw [he, endOfBody_nil] at hb
  have hinv2 := loopBody_next_inv s _ r hb
  have hb2 := loopBody_awaiting_trailer _ r2 [] rfl (hinv2 rfl).2 he2 hd
  rw [startSZ_step x buff pre r s _ hpre hb (r2 :: more),
    szLoop_cons_brk _ r2 more _ _ hb2]
  simp only [replicate_read_one]
  rcases he2 with h | h <;> simp [h]

/-- C13 at a concrete run: a payload read, the send-end signature, the trailer. -/
theorem C13_trailer_consumed_witness :
    startSZ [] (List.replicate 32 0)
      { writeErr := none,
        reads := [{ data := [1, 2, 3], err := none }] ++
                 { data := ZModemSZEnd, err := none } ::
                 { data := ZModemSZEndOO, err := none } :: [] } =
      { trace := Event.write ackFrame :: List.replicate 3 Event.read,
        outcome := Outcome.returned 0 none } :=
  C13_trailer_consumed [] (List.replicate 32 0) [{ data := [1, 2, 3], err := none }]
    { data := ZModemSZEnd, err := none } { data := ZModemSZEndOO, err := none } []
    { ZModemSZOO := false, ZModemSZ := true, buff := [1, 2, 3] ++ List.replicate 29 0 }
    (by decide) rfl rfl ⟨[], [], by decide⟩ rfl (Or.inl rfl)

/-- C14 (the code at the failing input): the trailer is awaited and the next
read delivers the five bytes `"OOabc"`; `startSZ` returns `n = 0`, so the three
bytes behind the trailer are dropped with it. -/
theorem C14_bytes_after_trailer_dropped :
    startSZ [] (List.replicate 32 0)
      { writeErr := none,
        reads := [{ data := ZModemSZEnd, err := none },
                  { data := [79, 79, 97, 98, 99], err := none }] } =
      { trace := [Event.write ackFrame, Event.read, Event.read],
        outcome := Outcome.returned 0 none } := by
  decide

/-- C15 (the code at the failing input): the send-end chunk `"hO" ++
ZModemSZEnd` leaves `'O'` at `buff[1]`, and the next read delivers the single
byte `"O"`, a chunk that is not empty and does not begin with `'O','O'`. The
trailer check reads `buff[1]` beyond `n = 1`, takes the chunk for the trailer
and `startSZ` returns `n = 0`: the same result, the same transport operations
and the same buffer contents as in the run where the peer did send the trailer
`"OO"`. The byte is consumed as a trailer, not left to be forwarded. After a
send-end chunk with another byte at that place (`"hi" ++ ZModemSZEnd`) the
same chunk `"O"` is handed back with `n = 1`. -/
theorem C15_lone_byte_taken_for_trailer :
    ([79] : List Nat) ≠ [] ∧ ¬ ZModemSZEndOO <+: [79] ∧
    startSZ [] (List.replicate 32 0)
      { writeErr := none,
        reads := [{ data := [104, 79] ++ ZModemSZEnd, err := none },
                  { data := [79], err := none }] } =
      { trace := [Event.write ackFrame, Event.read, Event.read],
        outcome := Outcome.returned 0 none } ∧
    startSZ [] (List.replicate 32 0)
      { writeErr := none,
        reads := [{ data := [104, 79] ++ ZModemSZEnd, err := none },
                  { data := ZModemSZEndOO, err := none }] } =
      { trace := [Event.write ackFrame, Event.read, Event.read],
        outcome := Outcome.returned 0 none } ∧
    (startSZ [] (List.replicate 32 0)
      { writeErr := none,
        reads := [{ data := [104, 79] ++ ZModemSZEnd, err := none }] }).outcome =
      Outcome.blocked
        { ZModemSZOO := true, ZModemSZ := false,
          buff := [104, 79] ++ ZModemSZEnd ++ List.replicate 10 0 } ∧
    (serviceRead ([104, 79] ++ ZModemSZEnd ++ List.replicate 10 0)
        { data := [79], err := none }).2.2 =
      (serviceRead ([104, 79] ++ ZModemSZEnd ++ List.replicate 10 0)
        { data := ZModemSZEndOO, err := none }).2.2 ∧
    startSZ [] (List.replicate 32 0)
      { writeErr := none,
        reads := [{ data := [104, 105] ++ ZModemSZEnd, err := none },
                  { data := [79], err := none }] } =
      { trace := [Event.write ackFrame, Event.read, Event.read],
        outcome := Outcome.returned 1 none } := by
  refine ⟨?_, ?_, ?_, ?_, ?_, ?_, ?_⟩ <;> decide

/-- C20: for every chunk read without error in the sending state that holds
neither `ZModemSZEnd` nor `ZModemCancel`, whatever its bytes and its length,
`startSZ` stays in the sending state: it writes nothing for the chunk and
waits in a further read; with more reads scripted, the trace goes on with at
least one more read and still holds the one write only. -/
theorem C20_plain_chunk_keeps_sending (x buff : List Nat) (pre : List ReadResult)
    (r : ReadResult) (s : LoopState)
    (hpre : (startSZ x buff { writeErr := none, reads := pre }).outcome = Outcome.blocked s)
    (hsz : s.ZModemSZ = true) (he : r.err = none)
    (hend : ¬ Occurs (chunk s.buff r) ZModemSZEnd)
    (hcan : ¬ Occurs (chunk s.buff r) ZModemCancel) :
    (∃ s2, startSZ x buff { writeErr := none, reads := pre ++ [r] } =
        { trace := Event.write ackFrame :: List.replicate (pre.length + 1) Event.read,
          outcome := Outcome.blocked s2 } ∧
      s2.ZModemSZOO = false ∧ s2.ZModemSZ = true) ∧
    (∀ (r2 : ReadResult) (more : List ReadResult), ∃ k,
      (startSZ x buff { writeErr := none, reads := pre ++ r :: r2 :: more }).trace =
        Event.write ackFrame :: List.replicate (pre.length + 2 + k) Event.read) := by
  obtain ⟨_, _, hinv⟩ := startSZ_blocked x buff pre s hpre
  have hoo := sending_not_awaiting s hinv hsz
  have hb := loopBody_sending_plain s r hoo hsz (Or.inl he)
    ((indexOf?_eq_none_iff _ _).mpr hend) ((indexOf?_eq_none_iff _ _).mpr hcan)
  rw [he, endOfBody_nil] at hb
  constructor
  · exact ⟨_, startSZ_nil_rest x buff pre r s _ hpre hb, rfl, rfl⟩
  · intro r2 more
    obtain ⟨k, hk⟩ := szLoop_cons_trace
      { ZModemSZOO := false, ZModemSZ := true,
        buff := chunk s.buff r ++ s.buff.drop (chunk s.buff r).length } r2 more
    refine ⟨k, ?_⟩
    rw [startSZ_step x buff pre r s _ hpre hb (r2 :: more), hk]
    simp only [← List.replicate_add]
    have : pre.length + 1 + (k + 1) = pre.length + 2 + k := by omega
    rw [this]

/-- C20 at a concrete run: an empty chunk read while sending. -/
theorem C20_plain_chunk_keeps_sending_witness :
    (∃ s2, startSZ [] (List.replicate 32 0)
        { writeErr := none, reads := [] ++ [{ data := [], err := none }] } =
        { trace := Event.write ackFrame :: List.replicate 1 Event.read,
          outcome := Outcome.blocked s2 } ∧
      s2.ZModemSZOO = false ∧ s2.ZModemSZ = true) ∧
    (∀ (r2 : ReadResult) (more : List ReadResult), ∃ k,
      (startSZ [] (List.replicate 32 0)
        { writeErr := none, reads := [] ++ { data := [], err := none } :: r2 :: more }).trace =
        Event.write ackFrame :: List.replicate (2 + k) Event.read) :=
  C20_plain_chunk_keeps_sending [] (List.replicate 32 0) [] { data := [], err := none }
    (initialState (List.replicate 32 0)) (by decide) rfl rfl
    ((indexOf?_eq_none_iff _ _).mp (by decide)) ((indexOf?_eq_none_iff _ _).mp (by decide))

/-! ## Split signatures, wire strings -/

/-- Neither part of a cut of `ZModemSZEnd` or of `ZModemCancel` holds one of
the two signatures. -/
theorem pieces_miss :
    ∀ S, S ∈ [ZModemSZEnd, ZModemCancel] → ∀ k, k < S.length → 0 < k →
      indexOf? (S.take k) ZModemSZEnd = none ∧ indexOf? (S.take k) ZModemCancel = none ∧
      indexOf? (S.drop k) ZModemSZEnd = none ∧ indexOf? (S.drop k) ZModemCancel = none := by
  decide

theorem chunk_of_le (buff : List Nat) (r : ReadResult) (h : r.data.length ≤ buff.length) :
    chunk buff r = r.data := by
  rw [chunk_eq, List.take_of_length_le h]

/-- C17 (as stated, refuted): `ZModemSZEnd` delivered in one read while sending
leaves the loop awaiting the trailer; delivered as its first 10 bytes and then
its last 10 bytes it leaves the loop in the sending state. -/
theorem C17_split_invariance_counterexample :
    ∃ s1 s2,
      (startSZ [] (List.replicate 32 0)
        { writeErr := none, reads := [{ data := ZModemSZEnd, err := none }] }).outcome =
        Outcome.blocked s1 ∧
      (startSZ [] (List.replicate 32 0)
        { writeErr := none,
          reads := [{ data := ZModemSZEnd.take 10, err := none },
                    { data := ZModemSZEnd.drop 10, err := none }] }).outcome =
        Outcome.blocked s2 ∧
      s1.ZModemSZOO = true ∧ s1.ZModemSZ = false ∧
      s2.ZModemSZOO = false ∧ s2.ZModemSZ = true :=
  ⟨_, _, rfl, rfl, rfl, rfl, rfl, rfl⟩

/-- C17 (amended): in the sending state, with a buffer that can take the whole
signature, each of `ZModemSZEnd` and `ZModemCancel` delivered in a single read
ends sending (`ZModemSZ` becomes false), whereas delivered as two consecutive
reads `S[0..k)`, `S[k..]` with `0 < k < len(S)` it is missed: the loop is left
in the sending state, waiting for a further read. -/
theorem C17_split_signature_not_recognised (x buff : List Nat) (pre : List ReadResult)
    (s : LoopState) (S : List Nat) (k : Nat)
    (hpre : (startSZ x buff { writeErr := none, reads := pre }).outcome = Outcome.blocked s)
    (hsz : s.ZModemSZ = true) (hS : S = ZModemSZEnd ∨ S = ZModemCancel)
    (hk0 : 0 < k) (hk : k < S.length) (hlen : S.length ≤ s.buff.length) :
    (∃ s1, (startSZ x buff
        { writeErr := none, reads := pre ++ [{ data := S, err := none }] }).outcome =
        Outcome.blocked s1 ∧ s1.ZModemSZ = false) ∧
    (∃ s2, (startSZ x buff
        { writeErr := none,
          reads := pre ++ [{ data := S.take k, err := none },
                           { data := S.drop k, err := none }] }).outcome =
        Outcome.blocked s2 ∧ s2.ZModemSZOO = false ∧ s2.ZModemSZ = true) := by
  obtain ⟨_, _, hinv⟩ := startSZ_blocked x buff pre s hpre
  have hoo := sending_not_awaiting s hinv hsz
  have hmem : S ∈ [ZModemSZEnd, ZModemCancel] := by
    rcases hS with h | h <;> simp [h]
  obtain ⟨m1, m2, m3, m4⟩ := pieces_miss S hmem k hk hk0
  constructor
  · have hc : chunk s.buff { data := S, err := none } = S := chunk_of_le _ _ hlen
    rcases hS with h | h
    · have hi : indexOf? (chunk s.buff { data := S, err := none }) ZModemSZEnd = some 0 := by
        rw [hc, h]; decide
      have hb := loopBody_sending_end s { data := S, err := none } 0 hoo hsz (Or.inl rfl) hi
      rw [endOfBody_nil] at hb
      exact ⟨_, by rw [startSZ_nil_rest x buff pre _ s _ hpre hb], rfl⟩
    · have hn : indexOf? (chunk s.buff { data := S, err := none }) ZModemSZEnd = none := by
        rw [hc, h]; decide
      have hi : indexOf? (chunk s.buff { data := S, err := none }) ZModemCancel = some 0 := by
        rw [hc, h]; decide
      have hb := loopBody_sending_cancel s { data := S, err := none } 0 hoo hsz (Or.inl rfl)
        hn hi
      rw [endOfBody_nil] at hb
      exact ⟨_, by rw [startSZ_nil_rest x buff pre _ s _ hpre hb], rfl⟩
  · have hc1 : chunk s.buff { data := S.take k, err := none } = S.take k :=
      chunk_of_le _ _ (by simp only [List.length_take]; omega)
    have hb1 := loopBody_sending_plain s { data := S.take k, err := none } hoo hsz
      (Or.inl rfl) (by rw [hc1]; exact m1) (by rw [hc1]; exact m2)
    rw [endOfBody_nil] at hb1
    have hl1 := loopBody_next_length s _ _ hb1
    have hc2 : ∀ b : List Nat, b.length = s.buff.length →
        chunk b { data := S.drop k, err := none } = S.drop k := fun b hb =>
      chunk_of_le _ _ (by simp only [List.length_drop]; omega)
    have hb2 := loopBody_sending_plain _ { data := S.drop k, err := none }
      (rfl : ({ ZModemSZOO := false, ZModemSZ := true,
                buff := chunk s.buff { data := S.take k, err := none } ++
                  s.buff.drop (chunk s.buff { data := S.take k, err := none }).length } :
                LoopState).ZModemSZOO = false) rfl
      (Or.inl rfl) (by rw [hc2 _ hl1]; exact m3) (by rw [hc2 _ hl1]; exact m4)
    rw [endOfBody_nil] at hb2
    obtain ⟨b2, hb3⟩ : ∃ b2, loopBody
        { ZModemSZOO := false, ZModemSZ := true,
          buff := chunk s.buff { data := S.take k, err := none } ++
            s.buff.drop (chunk s.buff { data := S.take k, err := none }).length }
        { data := S.drop k, err := none } =
        Step.next { ZModemSZOO := false, ZModemSZ := true, buff := b2 } := ⟨_, hb2⟩
    refine ⟨{ ZModemSZOO := false, ZModemSZ := true, buff := b2 }, ?_, rfl, rfl⟩
    rw [startSZ_step x buff pre _ s _ hpre hb1 [{ data := S.drop k, err := none }],
      szLoop_cons_next _ _ _ [] hb3]
    rfl

/-- C17 (amended) at a concrete cut: `ZModemCancel` after its fifth byte. -/
theorem C17_split_signature_not_recognised_witness :
    (∃ s1, (startSZ [] (List.replicate 32 0)
        { writeErr := none, reads := [] ++ [{ data := ZModemCancel, err := none }] }).outcome =
        Outcome.blocked s1 ∧ s1.ZModemSZ = false) ∧
    (∃ s2, (startSZ [] (List.replicate 32 0)
        { writeErr := none,
          reads := [] ++ [{ data := ZModemCancel.take 5, err := none },
                          { data := ZModemCancel.drop 5, err := none }] }).outcome =
        Outcome.blocked s2 ∧ s2.ZModemSZOO = false ∧ s2.ZModemSZ = true) :=
  C17_split_signature_not_recognised [] (List.replicate 32 0) []
    (initialState (List.replicate 32 0)) ZModemCancel 5 (by decide) rfl (Or.inr rfl)
    (by decide) (by decide) (by decide)

/-- C18: each receive-side signature constant is, byte for byte, the wire
string of its doc comment read as one byte per character. -/
theorem C18_receive_signatures_wire :
    ZModemRZStart = wireBytes "**\x18B0100000023be50\r\x8a\x11" ∧
    ZModemRZEStart = wireBytes "**\x18B0100000063f694\r\x8a\x11" ∧
    ZModemRZSStart = wireBytes "**\x18B0100000223d832\r\x8a\x11" ∧
    ZModemRZESStart = wireBytes "**\x18B010000026390f6\r\x8a\x11" ∧
    ZModemRZEnd = wireBytes "**\x18B0800000000022d\r\x8a" := by
  decide

/-! ## Control frames -/

theorem trailerCheck_take (b : List Nat) : trailerCheck b = trailerCheck (b.take 2) := by
  match b with
  | [] => rfl
  | [_] => rfl
  | a :: b :: t =>
    simp only [List.take_succ_cons, List.take_zero, trailerCheck_cons_cons]

theorem read_take_two (c b1 b2 : List Nat) (h : b1.take 2 = b2.take 2) :
    (c ++ b1.drop c.length).take 2 = (c ++ b2.drop c.length).take 2 := by
  match c with
  | [] => simpa using h
  | [a] =>
    have h1 : (b1.drop 1).take 1 = (b2.drop 1).take 1 := by
      rw [List.take_drop, List.take_drop, h]
    simp only [List.length_singleton, List.singleton_append, List.take_succ_cons]
    rw [h1]
  | _ :: _ :: _ => rfl

theorem sameView_chunk (s1 s2 : LoopState) (r : ReadResult) (h : SameView s1 s2) :
    chunk s1.buff r = chunk s2.buff r :=
  chunk_congr _ _ r h.2.2.1

/-- The end of the body treats states with the same view alike. -/
theorem endOfBody_sameView (n : Nat) (err : Option GoError) (a b : LoopState)
    (hok : err = none ∨ err = some GoError.EOF) (h : SameView a b) :
    (endOfBody n err a = endOfBody n err b ∧ ∀ t, endOfBody n err a ≠ Step.next t) ∨
    (∃ a2 b2, endOfBody n err a = Step.next a2 ∧ endOfBody n err b = Step.next b2 ∧
      SameView a2 b2) := by
  rcases hok with he | he
  · right
    exact ⟨a, b, by rw [he, endOfBody_nil], by rw [he, endOfBody_nil], h⟩
  · left
    rw [he, endOfBody_eof, endOfBody_eof]
    exact ⟨rfl, fun t ht => by cases ht⟩

/-- One pass through the body from two states with the same view, on the
same read result: either both end the loop in the same way, or both go round
with states that have the same view again. -/
theorem loopBody_sameView (s1 s2 : LoopState) (r : ReadResult) (h : SameView s1 s2) :
    (loopBody s1 r = loopBody s2 r ∧ ∀ t, loopBody s1 r ≠ Step.next t) ∨
    (∃ a b, loopBody s1 r = Step.next a ∧ loopBody s2 r = Step.next b ∧ SameView a b) := by
  have hc := sameView_chunk s1 s2 r h
  obtain ⟨hoo, hsz, hlen, htk⟩ := h
  have hl1 := read_buff_length s1.buff r
  have hl2 := read_buff_length s2.buff r
  rw [List.length_append] at hl1 hl2
  rcases err_cases r.err with he | ⟨e, he, hne⟩
  swap
  · left
    rw [loopBody_error s1 r e he hne, loopBody_error s2 r e he hne, hc]
    exact ⟨rfl, fun t ht => by cases ht⟩
  cases h1 : s1.ZModemSZOO with
  | true =>
    left
    have h2 : s2.ZModemSZOO = true := by rw [← hoo, h1]
    refine ⟨?_, fun t => loopBody_awaiting_not_next s1 r h1 t⟩
    rw [loopBody_awaiting_eq s1 r h1 he, loopBody_awaiting_eq s2 r h2 he, hc,
      trailerCheck_take (chunk s2.buff r ++ s1.buff.drop (chunk s2.buff r).length),
      trailerCheck_take (chunk s2.buff r ++ s2.buff.drop (chunk s2.buff r).length),
      read_take_two _ _ _ (htk h1)]
  | false =>
    have h2 : s2.ZModemSZOO = false := by rw [← hoo, h1]
    cases g1 : s1.ZModemSZ with
    | false =>
      left
      have g2 : s2.ZModemSZ = false := by rw [← hsz, g1]
      rw [loopBody_cancelled s1 r h1 g1 he, loopBody_cancelled s2 r h2 g2 he, hc]
      exact ⟨rfl, fun t ht => by cases ht⟩
    | true =>
      have g2 : s2.ZModemSZ = true := by rw [← hsz, g1]
      cases hend : indexOf? (chunk s1.buff r) ZModemSZEnd with
      | some i =>
        have hat := ((indexOf?_eq_some_iff _ _ i).mp hend).1
        have hsl := shifted_length _ _ _ hat
        have h20 := hat.1
        simp only [ZModemSZEnd, List.length_cons, List.length_nil] at h20
        rw [loopBody_sending_end s1 r i h1 g1 he hend,
          loopBody_sending_end s2 r i h2 g2 he (by rw [← hc]; exact hend), ← hc]
        refine endOfBody_sameView _ _ _ _ he ⟨rfl, rfl, ?_, fun _ => ?_⟩
        · simp only [List.length_append, List.length_drop]
          omega
        · have hle : 2 ≤ (shifted (chunk s1.buff r) ZModemSZEnd i).length := by
            rw [hsl]
            omega
          show List.take 2 (shifted (chunk s1.buff r) ZModemSZEnd i ++ _) =
            List.take 2 (shifted (chunk s1.buff r) ZModemSZEnd i ++ _)
          rw [List.take_append_of_le_length hle, List.take_append_of_le_length hle]
      | none =>
        cases hcan : indexOf? (chunk s1.buff r) ZModemCancel with
        | some i =>
          rw [loopBody_sending_cancel s1 r i h1 g1 he hend hcan,
            loopBody_sending_cancel s2 r i h2 g2 he (by rw [← hc]; exact hend)
              (by rw [← hc]; exact hcan), ← hc]
          refine endOfBody_sameView _ _ _ _ he ⟨rfl, rfl, ?_, fun hh => by cases hh⟩
          simp only [List.length_append, List.length_drop]
          omega
        | none =>
          rw [loopBody_sending_plain s1 r h1 g1 he hend hcan,
            loopBody_sending_plain s2 r h2 g2 he (by rw [← hc]; exact hend)
              (by rw [← hc]; exact hcan), ← hc]
          refine endOfBody_sameView _ _ _ _ he ⟨rfl, rfl, ?_, fun hh => by cases hh⟩
          simp only [List.length_append, List.length_drop]
          omega

/-- The loop from two states with the same view, on the same reads: the same
transport operations and the same outcome, up to the buffer of a waiting run. -/
theorem szLoop_sameView (rs : List ReadResult) :
    ∀ s1 s2 : LoopState, SameView s1 s2 →
      (szLoop s1 rs).1 = (szLoop s2 rs).1 ∧ SameOutcome (szLoop s1 rs).2 (szLoop s2 rs).2 := by
  induction rs with
  | nil =>
    intro s1 s2 h
    exact ⟨rfl, Or.inr ⟨s1, s2, rfl, rfl, h⟩⟩
  | cons r rest ih =>
    intro s1 s2 h
    rcases loopBody_sameView s1 s2 r h with ⟨heq, hnn⟩ | ⟨a, b, ha, hb, hab⟩
    · cases hb1 : loopBody s1 r with
      | next t => exact absurd hb1 (hnn t)
      | brk n err =>
        rw [szLoop_cons_brk s1 r rest n err hb1,
          szLoop_cons_brk s2 r rest n err (by rw [← heq]; exact hb1)]
        exact ⟨rfl, Or.inl rfl⟩
      | ret n err =>
        rw [szLoop_cons_ret s1 r rest n err hb1,
          szLoop_cons_ret s2 r rest n err (by rw [← heq]; exact hb1)]
        exact ⟨rfl, Or.inl rfl⟩
      | panic =>
        rw [szLoop_cons_panic s1 r rest hb1,
          szLoop_cons_panic s2 r rest (by rw [← heq]; exact hb1)]
        exact ⟨rfl, Or.inl rfl⟩
    · rw [szLoop_cons_next s1 a r rest ha, szLoop_cons_next s2 b r rest hb]
      obtain ⟨ht, ho⟩ := ih a b hab
      exact ⟨by simp only [ht], ho⟩

/-- C16: the outcome of `startSZ` does not depend on what the scratch buffer
held before the call. Two runs on the same initial chunk `x` and the same read
results, with scratch buffers of the same length but different prior contents,
perform the same transport operations and end alike: one returns `(n, err)`
exactly when the other does, a panic of one is a panic of the other, and when
both still wait for a read their loop states show the same flags and the same
first two buffer bytes while the trailer is awaited. -/
theorem C16_prior_buffer_contents_irrelevant (x buff1 buff2 : List Nat) (service : Service)
    (hlen : buff1.length = buff2.length) :
    (startSZ x buff1 service).trace = (startSZ x buff2 service).trace ∧
    (∀ n err, (startSZ x buff1 service).outcome = Outcome.returned n err ↔
      (startSZ x buff2 service).outcome = Outcome.returned n err) ∧
    SameOutcome (startSZ x buff1 service).outcome (startSZ x buff2 service).outcome := by
  have key : (startSZ x buff1 service).trace = (startSZ x buff2 service).trace ∧
      SameOutcome (startSZ x buff1 service).outcome (startSZ x buff2 service).outcome := by
    by_cases hx : Occurs x ZModemCancel
    · rw [startSZ_cancel x buff1 service hx, startSZ_cancel x buff2 service hx]
      exact ⟨rfl, Or.inl rfl⟩
    · rw [startSZ_no_cancel x buff1 service hx, startSZ_no_cancel x buff2 service hx]
      cases hw : service.writeErr with
      | some e => exact ⟨rfl, Or.inl rfl⟩
      | none =>
        have hv : SameView (initialState buff1) (initialState buff2) :=
          ⟨rfl, rfl, hlen, fun hh => by cases hh⟩
        obtain ⟨ht, ho⟩ := szLoop_sameView service.reads _ _ hv
        exact ⟨by simp only [ht], ho⟩
  refine ⟨key.1, ?_, key.2⟩
  intro n err
  rcases key.2 with heq | ⟨a, b, ha, hb, _⟩
  · rw [heq]
  · rw [ha, hb]
    constructor <;> intro hh <;> cases hh

/-- C16 at a concrete pair of runs: the buffer holds zeros in one and the
trailer bytes in the other; the read while the trailer is awaited delivers a
single `'O'`. -/
theorem C16_prior_buffer_contents_irrelevant_witness :
    (startSZ [] (List.replicate 32 0)
      { writeErr := none,
        reads := [{ data := ZModemSZEnd, err := none }, { data := [79], err := none }] }).trace =
    (startSZ [] (List.replicate 32 79)
      { writeErr := none,
        reads := [{ data := ZModemSZEnd, err := none }, { data := [79], err := none }] }).trace ∧
    (startSZ [] (List.replicate 32 0)
      { writeErr := none,
        reads := [{ data := ZModemSZEnd, err := none },
                  { data := [79], err := none }] }).outcome = Outcome.returned 1 none ∧
    (startSZ [] (List.replicate 32 79)
      { writeErr := none,
        reads := [{ data := ZModemSZEnd, err := none },
                  { data := [79], err := none }] }).outcome = Outcome.returned 1 none :=
  ⟨(C16_prior_buffer_contents_irrelevant [] (List.replicate 32 0) (List.replicate 32 79)
      { writeErr := none,
        reads := [{ data := ZModemSZEnd, err := none }, { data := [79], err := none }] }
      (by decide)).1, by decide, by decide⟩

/-! ## Claims about the signature constants -/

/-- C21: the four receive-start signatures are pairwise distinct byte
sequences of length 21, so `ByteContains(a, b)` reports no match for two
different variants, and a chunk equal to one variant matches that variant
(and no other). -/
theorem C21_receive_starts_distinct :
    receiveStartSignatures.Nodup ∧
    ∀ a, a ∈ receiveStartSignatures → ∀ b, b ∈ receiveStartSignatures →
      a.length = 21 ∧
      (a ≠ b → ByteContains a b = some { n := [], contain := false, mem := a }) ∧
      (a = b → ByteContains a b = some { n := [], contain := true, mem := a }) := by
  decide

/-- C22 (as stated, refuted): `ZModemSZStart` is not the byte sequence of the
string `"rz\r**\x18B00000000000000\r\x8a\x11"` of its doc comment, nor is
`ZModemSZEnd` that of `"\r**\x18B0800000000022d\r\x8a"`. -/
theorem C22_send_signatures_counterexample :
    ZModemSZStart ≠ wireBytes "rz\r**\x18B00000000000000\r\x8a\x11" ∧
    ZModemSZEnd ≠ wireBytes "\r**\x18B0800000000022d\r\x8a" := by
  decide

/-- C22 (amended): `ZModemSZStart` is the byte sequence of its doc string
without the leading three bytes `"rz\r"`, and `ZModemSZEnd` that of its doc
string without the leading `"\r"`: both constants start at the `**` of the
header. -/
theorem C22_send_signatures_without_lead :
    ZModemSZStart = (wireBytes "rz\r**\x18B00000000000000\r\x8a\x11").drop 3 ∧
    ZModemSZStart = wireBytes "**\x18B00000000000000\r\x8a\x11" ∧
    ZModemSZEnd = (wireBytes "\r**\x18B0800000000022d\r\x8a").drop 1 ∧
    ZModemSZEnd = wireBytes "**\x18B0800000000022d\r\x8a" := by
  decide

/-- C25: the acknowledgement frame written by `startSZ` has the length 21 of
`ZModemRZStart` and equals it at every index except 2, 18, 19 and 20, where
it holds the byte 46 (`'.'`) in place of 24, 13, 138 and 17. -/
theorem C25_ack_frame_against_rz_start :
    ackFrame.length = 21 ∧ ZModemRZStart.length = 21 ∧
    (∀ i, i < 21 → i ∉ [2, 18, 19, 20] → ackFrame[i]? = ZModemRZStart[i]?) ∧
    (ackFrame[2]? = some 46 ∧ ZModemRZStart[2]? = some 24) ∧
    (ackFrame[18]? = some 46 ∧ ZModemRZStart[18]? = some 13) ∧
    (ackFrame[19]? = some 46 ∧ ZModemRZStart[19]? = some 138) ∧
    (ackFrame[20]? = some 46 ∧ ZModemRZStart[20]? = some 17) := by
  decide

set_option maxRecDepth 100000 in
/-- C26: each of the seven hex-header signatures is a well-formed ZMODEM hex
header: after the lead 42, 42, 24, 66 come 14 lower-case hex digits, the
first ten encode five bytes, and the number written by the last four is the
CRC-16/XMODEM of those five bytes. -/
theorem C26_hex_headers_well_formed :
    ∀ S, S ∈ hexHeaderSignatures →
      S.take 4 = [42, 42, 24, 66] ∧
      ((S.drop 4).take 14).length = 14 ∧
      (hexBytes? ((S.drop 4).take 10)).map List.length = some 5 ∧
      (hexValue? ((S.drop 14).take 4)).isSome = true ∧
      (hexBytes? ((S.drop 4).take 10)).map crc16Xmodem = hexValue? ((S.drop 14).take 4) := by
  decide

/-- C26 at `ZModemRZStart`: the header `01 00 00 00 23` with the CRC `be50`. -/
theorem C26_hex_headers_well_formed_witness :
    ZModemRZStart.take 4 = [42, 42, 24, 66] ∧
    ((ZModemRZStart.drop 4).take 14).length = 14 ∧
    (hexBytes? ((ZModemRZStart.drop 4).take 10)).map List.length = some 5 ∧
    (hexValue? ((ZModemRZStart.drop 14).take 4)).isSome = true ∧
    (hexBytes? ((ZModemRZStart.drop 4).take 10)).map crc16Xmodem =
      hexValue? ((ZModemRZStart.drop 14).take 4) :=
  C26_hex_headers_well_formed ZModemRZStart (by decide)

/-- C27: each of the seven start and end signatures begins with the
control-frame prefix `ZModemRZCtrlStart`; every start signature ends with
`ZModemRZCtrlEnd1` and every end signature with `ZModemRZCtrlEnd2`; and
`ByteContains` finds the prefix and that suffix in each of them. -/
theorem C27_signatures_are_control_frames :
    (∀ S, S ∈ startSignatures ++ endSignatures →
      ZModemRZCtrlStart <+: S ∧
      (ByteContains S ZModemRZCtrlStart).map (fun r => r.contain) = some true) ∧
    (∀ S, S ∈ startSignatures →
      ZModemRZCtrlEnd1 <:+ S ∧
      (ByteContains S ZModemRZCtrlEnd1).map (fun r => r.contain) = some true) ∧
    (∀ S, S ∈ endSignatures →
      ZModemRZCtrlEnd2 <:+ S ∧
      (ByteContains S ZModemRZCtrlEnd2).map (fun r => r.contain) = some true) := by
  decide

/-! ## Claims about the whole run -/

theorem endOfBody_ne_panic (n : Nat) (err : Option GoError) (s : LoopState) :
    endOfBody n err s ≠ Step.panic := by
  unfold endOfBody
  split <;> intro h <;> cases h

/-- From a state that satisfies the invariant no pass through the body panics. -/
theorem loopBody_no_panic (s : LoopState) (r : ReadResult) (hinv : LoopInv s) :
    loopBody s r ≠ Step.panic := by
  rcases err_cases r.err with he | ⟨e, he, hne⟩
  swap
  · rw [loopBody_error s r e he hne]
    intro h
    cases h
  cases hoo : s.ZModemSZOO with
  | true =>
    obtain ⟨n, hn⟩ := loopBody_awaiting s r hoo (hinv hoo).2 he
    rw [hn]
    intro h
    cases h
  | false =>
    cases hsz : s.ZModemSZ with
    | false =>
      rw [loopBody_cancelled s r hoo hsz he]
      intro h
      cases h
    | true =>
      cases hend : indexOf? (chunk s.buff r) ZModemSZEnd with
      | some i =>
        rw [loopBody_sending_end s r i hoo hsz he hend]
        exact endOfBody_ne_panic _ _ _
      | none =>
        cases hcan : indexOf? (chunk s.buff r) ZModemCancel with
        | some i =>
          rw [loopBody_sending_cancel s r i hoo hsz he hend hcan]
          exact endOfBody_ne_panic _ _ _
        | none =>
          rw [loopBody_sending_plain s r hoo hsz he hend hcan]
          exact endOfBody_ne_panic _ _ _

/-- From a state that satisfies the invariant the loop never panics. -/
theorem szLoop_no_panic (rs : List ReadResult) :
    ∀ s : LoopState, LoopInv s → (szLoop s rs).2 ≠ Outcome.panicked := by
  induction rs with
  | nil =>
    intro s _ h
    cases h
  | cons r rest ih =>
    intro s hinv
    cases hb : loopBody s r with
    | next s1 =>
      rw [szLoop_cons_next s s1 r rest hb]
      exact ih s1 (loopBody_next_inv s s1 r hb)
    | brk n err =>
      rw [szLoop_cons_brk s r rest n err hb]
      intro h
      cases h
    | ret n err =>
      rw [szLoop_cons_ret s r rest n err hb]
      intro h
      cases h
    | panic => exact absurd hb (loopBody_no_panic s r hinv)

/-- C23: if the initial chunk `x` holds `ZModemCancel`, `startSZ` returns
`n = 0` and `err = nil` at once, with no transport write and no transport
read, whatever the transport would have answered. -/
theorem C23_cancel_in_initial_chunk (x buff : List Nat) (service : Service)
    (h : Occurs x ZModemCancel) :
    startSZ x buff service = { trace := [], outcome := Outcome.returned 0 none } :=
  startSZ_cancel x buff service h

/-- C23 at a concrete call: `x` is `"h"` followed by the cancel signature. -/
theorem C23_cancel_in_initial_chunk_witness :
    startSZ ([104] ++ ZModemCancel) [0, 0, 0, 0]
      { writeErr := some (GoError.other 1), reads := [{ data := [1], err := none }] } =
      { trace := [], outcome := Outcome.returned 0 none } :=
  C23_cancel_in_initial_chunk ([104] ++ ZModemCancel) [0, 0, 0, 0]
    { writeErr := some (GoError.other 1), reads := [{ data := [1], err := none }] }
    ⟨[104], [], by decide⟩

/-- C24: the state invariant of the loop. Whenever `startSZ` is about to read
(at the start of every iteration), the flags `(ZModemSZ, ZModemSZOO)` are one
of `(true, false)`, `(false, true)`, `(false, false)`, never both true; and
once `ZModemSZ` is false the next read is the last one: `startSZ` returns
after it, so the flag is never set again. -/
theorem C24_flag_invariant (x buff : List Nat) (pre : List ReadResult) (s : LoopState)
    (hpre : (startSZ x buff { writeErr := none, reads := pre }).outcome = Outcome.blocked s) :
    ((s.ZModemSZ = true ∧ s.ZModemSZOO = false) ∨
     (s.ZModemSZ = false ∧ s.ZModemSZOO = true) ∨
     (s.ZModemSZ = false ∧ s.ZModemSZOO = false)) ∧
    (s.ZModemSZ = false → ∀ (r : ReadResult) (more : List ReadResult), ∃ n err,
      startSZ x buff { writeErr := none, reads := pre ++ r :: more } =
        { trace := Event.write ackFrame :: List.replicate (pre.length + 1) Event.read,
          outcome := Outcome.returned n err }) := by
  obtain ⟨_, _, hinv⟩ := startSZ_blocked x buff pre s hpre
  constructor
  · cases hoo : s.ZModemSZOO with
    | true => exact Or.inr (Or.inl ⟨(hinv hoo).1, rfl⟩)
    | false =>
      cases hsz : s.ZModemSZ with
      | true => exact Or.inl ⟨rfl, rfl⟩
      | false => exact Or.inr (Or.inr ⟨rfl, rfl⟩)
  · intro hsz r more
    rw [startSZ_append x buff pre (r :: more) s hpre]
    cases hoo : s.ZModemSZOO with
    | true =>
      obtain ⟨n, err, hn⟩ := szLoop_awaiting s r more hinv hoo
      exact ⟨n, err, by rw [hn]; simp only [replicate_read_one]⟩
    | false =>
      exact ⟨(chunk s.buff r).length, (if r.err = some GoError.EOF then none else r.err),
        by rw [szLoop_cancelled s r more hoo hsz]; simp only [replicate_read_one]⟩

/-- C24 at a concrete run: the state after a chunk with the cancel signature. -/
theorem C24_flag_invariant_witness :
    ((false = true ∧ false = false) ∨ (false = false ∧ false = true) ∨
     (false = false ∧ false = false)) ∧
    (false = false → ∀ (r : ReadResult) (more : List ReadResult), ∃ n err,
      startSZ [] (List.replicate 32 0)
        { writeErr := none,
          reads := [{ data := ZModemCancel, err := none }] ++ r :: more } =
        { trace := Event.write ackFrame :: List.replicate 2 Event.read,
          outcome := Outcome.returned n err }) :=
  C24_flag_invariant [] (List.replicate 32 0) [{ data := ZModemCancel, err := none }]
    { ZModemSZOO := false, ZModemSZ := false, buff := ZModemCancel ++ List.replicate 22 0 }
    (by decide)

/-- C28: `startSZ` never indexes or slices out of range. For every initial
chunk, every scratch buffer and every sequence of read results (each read
delivering `0 ≤ n ≤ len(buff)` bytes), the run does not panic: the slices
`buff[:n]` are in range, and the trailer check reads `buff[0]`, `buff[1]` only
after a chunk with the 20-byte send-end signature has gone through the buffer. -/
theorem C28_no_index_out_of_range (x buff : List Nat) (service : Service) :
    (startSZ x buff service).outcome ≠ Outcome.panicked := by
  by_cases hx : Occurs x ZModemCancel
  · rw [startSZ_cancel x buff service hx]
    intro h
    cases h
  · rw [startSZ_no_cancel x buff service hx]
    cases hw : service.writeErr with
    | some e =>
      intro h
      cases h
    | none =>
      exact szLoop_no_panic service.reads (initialState buff)
        (fun hh => by simp [initialState] at hh)

end ZModem

/-! ## Claims about `GetServers` -/

namespace Toolbox

theorem stringsSplit_ne_nil (sep : Char) (s : List Char) : stringsSplit sep s ≠ [] := by
  cases s with
  | nil => simp [stringsSplit]
  | cons c t =>
    unfold stringsSplit
    by_cases hc : c = sep
    · simp [hc]
    · rw [if_neg hc]
      cases stringsSplit sep t <;> simp

theorem stringsJoin_cons_head (sep c : Char) (h : List Char) (r : List (List Char)) :
    stringsJoin sep ((c :: h) :: r) = c :: stringsJoin sep (h :: r) := by
  cases r with
  | nil => rfl
  | cons q r => rfl

/-- Joining what `strings.Split` returns gives the string back. -/
theorem stringsJoin_split (sep : Char) (s : List Char) :
    stringsJoin sep (stringsSplit sep s) = s := by
  induction s with
  | nil => rfl
  | cons c t ih =>
    unfold stringsSplit
    by_cases hc : c = sep
    · rw [if_pos hc]
      cases hs : stringsSplit sep t with
      | nil => exact absurd hs (stringsSplit_ne_nil sep t)
      | cons q r =>
        rw [hs] at ih
        show [] ++ sep :: stringsJoin sep (q :: r) = c :: t
        rw [ih, hc]
        rfl
    · rw [if_neg hc]
      cases hs : stringsSplit sep t with
      | nil => exact absurd hs (stringsSplit_ne_nil sep t)
      | cons q r =>
        rw [hs] at ih
        show stringsJoin sep ((c :: q) :: r) = c :: t
        rw [stringsJoin_cons_head, ih]

/-- No part returned by `strings.Split` holds the separator. -/
theorem stringsSplit_parts (sep : Char) (s : List Char) :
    ∀ p, p ∈ stringsSplit sep s → sep ∉ p := by
  induction s with
  | nil =>
    intro p hp
    simp [stringsSplit] at hp
    simp [hp]
  | cons c t ih =>
    intro p hp
    unfold stringsSplit at hp
    by_cases hc : c = sep
    · rw [if_pos hc] at hp
      rcases List.mem_cons.mp hp with h | h
      · simp [h]
      · exact ih p h
    · rw [if_neg hc] at hp
      cases hs : stringsSplit sep t with
      | nil => exact absurd hs (stringsSplit_ne_nil sep t)
      | cons q r =>
        rw [hs] at hp ih
        rcases List.mem_cons.mp hp with h | h
        · rw [h]
          intro hmem
          rcases List.mem_cons.mp hmem with h1 | h1
          · exact hc h1.symm
          · exact ih q (List.mem_cons_self _ _) h1
        · exact ih p (List.mem_cons_of_mem _ h)

/-- C29: for every address, `GetServers` returns a non-empty list. If the
address holds a `','` it is the split on `','` (no part holds a `','`, any
`';'` stays inside the parts); otherwise, if it holds a `';'`, the split on
`';'`; otherwise the one-element list of the address. Joining the result with
the separator used gives back the address. -/
theorem C29_GetServers_split (address : List Char) :
    GetServers address ≠ [] ∧
    (',' ∈ address →
      GetServers address = stringsSplit ',' address ∧
      (∀ p, p ∈ GetServers address → ',' ∉ p) ∧
      stringsJoin ',' (GetServers address) = address) ∧
    (',' ∉ address → ';' ∈ address →
      GetServers address = stringsSplit ';' address ∧
      (∀ p, p ∈ GetServers address → ';' ∉ p) ∧
      stringsJoin ';' (GetServers address) = address) ∧
    (',' ∉ address → ';' ∉ address →
      GetServers address = [address] ∧
      stringsJoin ',' (GetServers address) = address ∧
      stringsJoin ';' (GetServers address) = address) := by
  refine ⟨?_, ?_, ?_, ?_⟩
  · unfold GetServers
    split
    · exact stringsSplit_ne_nil _ _
    · split
      · exact stringsSplit_ne_nil _ _
      · simp
  · intro hc
    have h : GetServers address = stringsSplit ',' address := by
      simp [GetServers, stringsContains, hc]
    rw [h]
    exact ⟨rfl, stringsSplit_parts _ _, stringsJoin_split _ _⟩
  · intro hc hs
    have h : GetServers address = stringsSplit ';' address := by
      simp [GetServers, stringsContains, hc, hs]
    rw [h]
    exact ⟨rfl, stringsSplit_parts _ _, stringsJoin_split _ _⟩
  · intro hc hs
    have h : GetServers address = [address] := by
      simp [GetServers, stringsContains, hc, hs]
    rw [h]
    exact ⟨rfl, rfl, rfl⟩

/-- C29 at a concrete address, `"a:1,b:2;c"`. -/
theorem C29_GetServers_split_witness :
    GetServers ['a', ':', '1', ',', 'b', ':', '2', ';', 'c'] =
      stringsSplit ',' ['a', ':', '1', ',', 'b', ':', '2', ';', 'c'] ∧
    (∀ p, p ∈ GetServers ['a', ':', '1', ',', 'b', ':', '2', ';', 'c'] → ',' ∉ p) ∧
    stringsJoin ',' (GetServers ['a', ':', '1', ',', 'b', ':', '2', ';', 'c']) =
      ['a', ':', '1', ',', 'b', ':', '2', ';', 'c'] :=
  (C29_GetServers_split ['a', ':', '1', ',', 'b', ':', '2', ';', 'c']).2.1 (by decide)

end Toolbox

/-! ## Claims about `formatErrorField` -/

namespace Context

theorem formatErrorField_snoc (init : List Value) (v : Value) :
    formatErrorField (init ++ [v]) =
      match v with
      | Value.error e => some (init, some e)
      | _ => some (init ++ [v], none) := by
  have hl : (init ++ [v]).length - 1 = init.length := by simp
  have hne : ¬ ((init ++ [v]).length = 0) := by simp
  have hget : (init ++ [v])[init.length]? = some v := by simp
  have htake : (init ++ [v]).take init.length = init := by simp
  unfold formatErrorField
  simp only [hne, if_false, hl, hget, htake]
  cases v <;> rfl

/-- C30: `formatErrorField` returns `(nil, nil)` for an empty argument list;
when the last argument is an error `e` it returns the arguments without the
last one and `err = e`, so that `fields ++ [e] = args`; otherwise it returns
all the arguments and a nil error. It never indexes out of range. -/
theorem C30_formatErrorField_cases (args : List Value) :
    (args = [] → formatErrorField args = some ([], none)) ∧
    (∀ init e, args = init ++ [Value.error e] →
      formatErrorField args = some (init, some e)) ∧
    (args ≠ [] → (∀ e, args.getLast? ≠ some (Value.error e)) →
      formatErrorField args = some (args, none)) := by
  refine ⟨?_, ?_, ?_⟩
  · intro h
    rw [h]
    rfl
  · intro init e h
    rw [h, formatErrorField_snoc]
  · intro hne hlast
    have hsplit := List.dropLast_append_getLast hne
    have hv : ∀ e, args.getLast hne ≠ Value.error e := by
      intro e he
      apply hlast e
      rw [List.getLast?_eq_getLast _ hne, he]
    rw [← hsplit, formatErrorField_snoc]
    cases hg : args.getLast hne with
    | error e => exact absurd hg (hv e)
    | other v => rfl
    | nil => rfl

/-- C30 at a concrete call: a message argument followed by an error. -/
theorem C30_formatErrorField_cases_witness :
    formatErrorField [Value.other 7, Value.error 3] = some ([Value.other 7], some 3) :=
  (C30_formatErrorField_cases [Value.other 7, Value.error 3]).2.1 [Value.other 7] 3 rfl

end Context
